import Mathlib

/-!
Verification of the HealthPackTracker inventory application.

Shallow embedding of the application's data model and operations
(`models.py`, `utils.py`, `routes.py`) into Lean 4.

Conventions used throughout:
  * Python `str` values are modelled as `List Char`.
  * Python `float` values are modelled as `Rat`; the application only ever
    produces floats by parsing decimal strings and by ring operations on
    such values, and all claims under study only involve exact decimal
    data, so rationals are a faithful carrier.
  * Python `int` values are modelled as `Int`.
  * Fallible operations (Python code that can raise) return `Option` or
    `Except`.
  * The flat CSV files behind each collection are modelled as
    `Option (List <row structure>)`: `none` is a missing file
    (`FileNotFoundError`), `some rows` is a present file whose parsed
    CSV rows are `rows`.  The `csv` module's quoting layer round-trips
    arbitrary field strings, so rows are modelled at the field level.
-/

namespace HPT

attribute [local semireducible] Rat.mul Rat.add Rat.sub Rat.inv

/-- Python strings are modelled as lists of characters. -/
abbrev Str := List Char

/-- Characters of a string literal, for readable concrete strings. -/
def chars (s : String) : Str := s.data

/-- The whitespace characters removed by Python's `str.strip()`. -/
def pyIsSpace (c : Char) : Bool :=
  c = ' ' || c = '\t' || c = '\n' || c = '\r' || c = '\x0b' || c = '\x0c'

/-- Right half of Python's `str.strip()`. -/
def stripRight (s : Str) : Str := (s.reverse.dropWhile pyIsSpace).reverse

/-- Python's `str.strip()` with no argument: remove leading and trailing
whitespace. -/
def pyStrip (s : Str) : Str := stripRight (s.dropWhile pyIsSpace)

/-- Python's `str.split(sep)` for a one-character separator: splits on every
occurrence, keeping empty segments (`"".split(s) = [""]`). -/
def pySplit (sep : Char) : Str → List Str
  | [] => [[]]
  | c :: s =>
    match pySplit sep s with
    | [] => [[c]]
    | g :: rest => if c = sep then [] :: g :: rest else (c :: g) :: rest

/-- Python's `str.lower()` (ASCII is all the application uses). -/
def pyLower (s : Str) : Str := s.map Char.toLower

/-- The character for a decimal digit value. -/
def digitChar (d : Nat) : Char := Char.ofNat (48 + d)

/-- The decimal value of a digit character, if it is one. -/
def charDigit (c : Char) : Option Nat :=
  if 48 ≤ c.toNat ∧ c.toNat ≤ 57 then some (c.toNat - 48) else none

/-- Decimal digits of `n`, least significant first, with structural fuel so
that the kernel can evaluate it.  `natDigitsAux fuel n` is correct whenever
`n ≤ fuel`. -/
def natDigitsAux : Nat → Nat → List Nat
  | _, 0 => []
  | 0, _ + 1 => []
  | fuel + 1, n + 1 => ((n + 1) % 10) :: natDigitsAux fuel ((n + 1) / 10)

/-- Decimal digits of `n`, least significant first. -/
def natDigits (n : Nat) : List Nat := natDigitsAux n n

/-- The value of a least-significant-first decimal digit list. -/
def valDigits : List Nat → Nat
  | [] => 0
  | d :: t => d + 10 * valDigits t

/-- Python's `str(n)` for a natural number. -/
def natStr (n : Nat) : Str :=
  if n = 0 then ['0'] else (natDigits n).reverse.map digitChar

/-- Python's `str(i)` for an integer. -/
def intStr (i : Int) : Str :=
  if i < 0 then '-' :: natStr i.natAbs else natStr i.natAbs

/-- Digit values of a string consisting only of digit characters. -/
def charsToDigits : Str → Option (List Nat)
  | [] => some []
  | c :: t =>
    match charDigit c, charsToDigits t with
    | some d, some ds => some (d :: ds)
    | _, _ => none

/-- Value of a non-empty all-digit string (most significant digit first). -/
def parseNatChars (cs : Str) : Option Nat :=
  if cs.isEmpty then none
  else (charsToDigits cs).map (fun ds => ds.foldl (fun a d => 10 * a + d) 0)

/-- Model of Python's `int(s)` on the forms this application feeds it:
surrounding whitespace, an optional sign, then decimal digits.  (Python also
accepts `_` digit separators, which never occur here.) -/
def pyInt (s : Str) : Option Int :=
  match pyStrip s with
  | '-' :: rest => (parseNatChars rest).map (fun n => -(n : Int))
  | '+' :: rest => (parseNatChars rest).map (fun n => (n : Int))
  | t => (parseNatChars t).map (fun n => (n : Int))

/-- Smallest exponent `k ≤ 39` with `q * 10 ^ k` an integer, if any. -/
def decExp (q : Rat) : Option Nat :=
  (List.range 40).find? (fun k => (q * 10 ^ k).den = 1)

/-- `q` has a finite decimal expansion (of reasonable size). -/
def FiniteDec (q : Rat) : Prop := (decExp q).isSome = true

instance (q : Rat) : Decidable (FiniteDec q) := by unfold FiniteDec; infer_instance

/-- Model of Python's `str(x)` for a float holding the exact decimal value
`q`: the shortest decimal rendering, always containing a decimal point
(`5.0`, `2.5`, `-0.05`).  Values without a short finite decimal expansion
render as `nan`; no value in this development ever does. -/
def floatStr (q : Rat) : Str :=
  match decExp q with
  | none => chars "nan"
  | some k =>
    let m : Int := (q * 10 ^ k).num
    let sign : Str := if m < 0 then ['-'] else []
    if k = 0 then sign ++ natStr m.natAbs ++ chars ".0"
    else
      let hi := m.natAbs / 10 ^ k
      let lo := m.natAbs % 10 ^ k
      let lod := natStr lo
      sign ++ natStr hi ++ '.' :: (List.replicate (k - lod.length) '0' ++ lod)

/-- The unsigned part of `pyFloat`: digits with an optional fractional
part. -/
def pyFloatBody (sgn : Int) (u : Str) : Option Rat :=
  match u.dropWhile (fun c => c ≠ '.') with
  | [] => (parseNatChars (u.takeWhile (fun c => c ≠ '.'))).map
      (fun n => ((sgn * n : Int) : Rat))
  | '.' :: fp => do
    let n ← parseNatChars (u.takeWhile (fun c => c ≠ '.'))
    let f ← parseNatChars fp
    pure ((sgn : Rat) * ((n : Rat) + (f : Rat) / (10 : Rat) ^ fp.length))
  | _ => none

/-- Model of Python's `float(s)` on the decimal forms this application feeds
it: surrounding whitespace, an optional sign, digits, and an optional
fractional part. -/
def pyFloat (s : Str) : Option Rat :=
  match pyStrip s with
  | '-' :: rest => pyFloatBody (-1) rest
  | '+' :: rest => pyFloatBody 1 rest
  | t => pyFloatBody 1 t

/-! ## Date and time

`datetime` values are modelled as epoch seconds (`Int`).  The application
stores timestamps as strings in the fixed format `YYYY-MM-DD HH:MM:SS`
(`strftime('%Y-%m-%d %H:%M:%S')`) and reads them back with `strptime` on the
same format; `parseDateTime` below models that round trip, including
`strptime`'s calendar validation (`ValueError` on an out-of-range field
becomes `none`). -/

/-- Gregorian leap year. -/
def isLeapYear (y : Nat) : Bool :=
  (y % 4 = 0 && y % 100 ≠ 0) || y % 400 = 0

/-- Days in a month of the proleptic Gregorian calendar. -/
def daysInMonth (y m : Nat) : Nat :=
  if m = 2 then (if isLeapYear y then 29 else 28)
  else if m = 4 || m = 6 || m = 9 || m = 11 then 30
  else 31

/-- Days from 1970-01-01 to the given civil date (Howard Hinnant's
`days_from_civil` algorithm, restricted to years ≥ 1). -/
def daysFromCivil (y m d : Nat) : Int :=
  let y' := y - (if m ≤ 2 then 1 else 0)
  let era := y' / 400
  let yoe := y' % 400
  let mp := if m > 2 then m - 3 else m + 9
  let doy := (153 * mp + 2) / 5 + d - 1
  let doe := yoe * 365 + yoe / 4 - yoe / 100 + doy
  ((era * 146097 + doe : Nat) : Int) - 719468

/-- Read a fixed number of decimal digits off the front of a string. -/
def readDigits : Nat → Str → Option (Nat × Str)
  | 0, s => some (0, s)
  | _ + 1, [] => none
  | k + 1, c :: t => do
    let d ← charDigit c
    let (n, rest) ← readDigits k t
    pure (d * 10 ^ k + n, rest)

/-- Expect a literal character off the front of a string. -/
def readChar (c : Char) : Str → Option Str
  | c' :: t => if c' = c then some t else none
  | [] => none

/-- Model of `datetime.strptime(s, '%Y-%m-%d %H:%M:%S')` followed by
conversion to epoch seconds.  Returns `none` (Python: `ValueError`) on a
malformed string or out-of-range calendar field. -/
def parseDateTime (s : Str) : Option Int := do
  let (y, r1) ← readDigits 4 s
  let r2 ← readChar '-' r1
  let (mo, r3) ← readDigits 2 r2
  let r4 ← readChar '-' r3
  let (d, r5) ← readDigits 2 r4
  let r6 ← readChar ' ' r5
  let (h, r7) ← readDigits 2 r6
  let r8 ← readChar ':' r7
  let (mi, r9) ← readDigits 2 r8
  let r10 ← readChar ':' r9
  let (sec, r11) ← readDigits 2 r10
  if r11 = [] ∧ 1 ≤ mo ∧ mo ≤ 12 ∧ 1 ≤ d ∧ d ≤ daysInMonth y mo ∧
      h ≤ 23 ∧ mi ≤ 59 ∧ sec ≤ 59 then
    pure (daysFromCivil y mo d * 86400 + (h * 3600 + mi * 60 + sec : Nat))
  else none

/-! ## Data model (`models.py`) -/

/-- `models.User`. -/
structure User where
  username : Str
  password_hash : Str
  role : Str
  email : Str := []
deriving DecidableEq, Repr

/-- The role-to-permissions table from `User.has_permission`. -/
def permTable : List (Str × List Str) :=
  [(chars "admin",
    [chars "view", chars "edit", chars "delete", chars "import",
     chars "export", chars "manage_users"]),
   (chars "manager",
    [chars "view", chars "edit", chars "import", chars "export",
     chars "approve_orders"]),
   (chars "staff",
    [chars "view", chars "record_counts", chars "log_waste"])]

/-- `User.has_permission`: membership of `permission` in the permission list
of the user's role, with unknown roles mapping to the empty list
(`permissions.get(self.role, [])`). -/
def has_permission (u : User) (permission : Str) : Bool :=
  (((permTable.find? (fun e => e.1 = u.role)).map (fun e => e.2)).getD
    []).contains permission

/-- `models.InventoryItem`.  `quantity` and `unit_cost` are Python floats
(`Rat` here); `par_level` is a Python int. -/
structure InventoryItem where
  name : Str
  unit : Str
  quantity : Rat
  par_level : Int
  category : Str := chars "General"
  unit_cost : Rat := 0
  vendors : Str := []
  last_updated : Str := []
deriving DecidableEq, Repr

/-- `InventoryItem.is_low_stock`: `self.quantity <= self.par_level`. -/
def is_low_stock (it : InventoryItem) : Bool :=
  it.quantity ≤ (it.par_level : Rat)

/-- `InventoryItem.total_value`: `self.quantity * self.unit_cost`. -/
def total_value (it : InventoryItem) : Rat :=
  it.quantity * it.unit_cost

/-- `InventoryItem.get_vendors`:
`[v.strip() for v in self.vendors.split(',') if v.strip()]`. -/
def get_vendors (it : InventoryItem) : List Str :=
  ((pySplit ',' it.vendors).map pyStrip).filter (fun v => ¬ v.isEmpty)

/-- `InventoryItem.quantity_needed`: `max(0, self.par_level - self.quantity)`. -/
def quantity_needed (it : InventoryItem) : Rat :=
  max 0 ((it.par_level : Rat) - it.quantity)

/-- `models.WasteEntry`.  `date` is the stored timestamp string. -/
structure WasteEntry where
  item_name : Str
  quantity : Rat
  unit : Str
  reason : Str
  date : Str
  logged_by : Str
  unit_cost : Rat := 0
deriving DecidableEq, Repr

/-- `WasteEntry.waste_value`: `self.quantity * self.unit_cost`. -/
def waste_value (e : WasteEntry) : Rat :=
  e.quantity * e.unit_cost

/-- `models.Vendor`. -/
structure Vendor where
  name : Str
  contact_info : Str := []
  address : Str := []
  phone : Str := []
  email : Str := []
  exclude_from_shopping_list : Bool := false
deriving DecidableEq, Repr

/-- `models.Category`. -/
structure Category where
  name : Str
  description : Str := []
  created_date : Str := []
deriving DecidableEq, Repr

/-- `models.DEFAULT_CATEGORIES`. -/
def DEFAULT_CATEGORIES : List Str :=
  [chars "General", chars "Produce", chars "Meat & Poultry", chars "Dairy",
   chars "Pantry", chars "Beverages", chars "Frozen",
   chars "Cleaning Supplies", chars "Frozen Bulk Items",
   chars "Frozen Beef Meals", chars "Frozen Chicken Meals",
   chars "Frozen Turkey Meals", chars "Frozen Seafood"]

/-- `models.WeeklyWasteReport`.  The source stores `week_start`/`week_end`
as `strftime('%Y-%m-%d')` strings; here they are kept as the underlying
timestamps (the rendering is presentation only and no claim inspects it).
The three breakdown dicts are modelled as insertion-ordered association
lists, matching Python dict semantics. -/
structure WeeklyWasteReport where
  week_start : Int
  week_end : Int
  total_entries : Nat
  total_value : Rat
  by_category : List (Str × Rat)
  by_reason : List (Str × Rat)
  by_item : List (Str × Rat)
deriving DecidableEq, Repr

/-! ## Record store (`utils.py`)

Each CSV file is modelled as `Option (List <row>)`; `none` models
`FileNotFoundError`.  Row structures carry the raw field strings exactly as
the `csv` module delivers them. -/

/-- A parsed CSV row of `inventory.csv`. -/
structure InvRow where
  name : Str
  unit : Str
  quantity : Str
  par_level : Str
  category : Str
  unit_cost : Str
  vendors : Str
  last_updated : Str
deriving DecidableEq, Repr

/-- The field rendering performed by `write_inventory` (via
`InventoryItem.to_dict` and `csv.DictWriter`): numbers are written with
`str`. -/
def itemToRow (it : InventoryItem) : InvRow :=
  { name := it.name, unit := it.unit, quantity := floatStr it.quantity,
    par_level := intStr it.par_level, category := it.category,
    unit_cost := floatStr it.unit_cost, vendors := it.vendors,
    last_updated := it.last_updated }

/-- `utils.write_inventory`: full overwrite of `inventory.csv`. -/
def write_inventory (items : List InventoryItem) : List InvRow :=
  items.map itemToRow

/-- One row of `read_inventory`: `float(row['quantity'])`,
`int(row['par_level'])`, `float(row.get('unit_cost', 0.0))`; a parse
failure raises `ValueError` (`none`). -/
def rowToItem (r : InvRow) : Option InventoryItem := do
  let q ← pyFloat r.quantity
  let p ← pyInt r.par_level
  let c ← pyFloat r.unit_cost
  pure { name := r.name, unit := r.unit, quantity := q, par_level := p,
         category := r.category, unit_cost := c, vendors := r.vendors,
         last_updated := r.last_updated }

/-- Parse all inventory rows in order; the first bad row raises. -/
def readInvRows : List InvRow → Option (List InventoryItem)
  | [] => some []
  | r :: t =>
    match rowToItem r, readInvRows t with
    | some it, some its => some (it :: its)
    | _, _ => none

/-- `utils.read_inventory`: a missing file (`FileNotFoundError`) yields the
empty list; otherwise the rows are parsed in order (an unparsable numeric
field raises `ValueError`, modelled as `none`). -/
def read_inventory : Option (List InvRow) → Option (List InventoryItem)
  | none => some []
  | some rows => readInvRows rows

/-- A parsed CSV row of `users.csv`. -/
structure UserRow where
  username : Str
  password_hash : Str
  role : Str
  email : Str
deriving DecidableEq, Repr

/-- `utils.read_users`: a missing file yields the empty list. -/
def read_users : Option (List UserRow) → List User
  | none => []
  | some rows =>
    rows.map (fun r =>
      { username := r.username, password_hash := r.password_hash,
        role := r.role, email := r.email })

/-- A parsed CSV row of `waste_log.csv`. -/
structure WasteRow where
  item_name : Str
  quantity : Str
  unit : Str
  reason : Str
  date : Str
  logged_by : Str
  unit_cost : Str
deriving DecidableEq, Repr

/-- One row of `read_waste_log`: the `unit_cost` field is first reduced to
its leading `[\d.]+` run (`re.match(r'^[\d.]+', ...)`, empty match meaning
`0.0`), then parsed with `float`; `quantity` is parsed with `float`.  A
`ValueError` makes the row be skipped (`none`). -/
def parseWasteRow (r : WasteRow) : Option WasteEntry := do
  let pre := r.unit_cost.takeWhile (fun c => c.isDigit || c = '.')
  let cost ← if pre.isEmpty then some 0 else pyFloat pre
  let q ← pyFloat r.quantity
  pure { item_name := r.item_name, quantity := q, unit := r.unit,
         reason := r.reason, date := r.date, logged_by := r.logged_by,
         unit_cost := cost }

/-- `utils.read_waste_log`: a missing file yields the empty list; malformed
rows are skipped individually. -/
def read_waste_log : Option (List WasteRow) → List WasteEntry
  | none => []
  | some rows => rows.filterMap parseWasteRow

/-- A parsed CSV row of `vendors.csv`. -/
structure VendorRow where
  name : Str
  contact_info : Str
  address : Str
  phone : Str
  email : Str
  exclude_from_shopping_list : Str
deriving DecidableEq, Repr

/-- `utils.read_vendors`: a missing file yields the empty list; the
exclusion flag is `row.get(..., 'False').lower() == 'true'`. -/
def read_vendors : Option (List VendorRow) → List Vendor
  | none => []
  | some rows =>
    rows.map (fun r =>
      { name := r.name, contact_info := r.contact_info,
        address := r.address, phone := r.phone, email := r.email,
        exclude_from_shopping_list :=
          pyLower r.exclude_from_shopping_list = chars "true" })

/-- A parsed CSV row of `categories.csv`. -/
structure CategoryRow where
  name : Str
  description : Str
  created_date : Str
deriving DecidableEq, Repr

/-- The default category records built by `read_categories` when the file
is missing (`now` is `datetime.now().strftime('%Y-%m-%d %H:%M:%S')`). -/
def defaultCategoryRecords (now : Str) : List Category :=
  DEFAULT_CATEGORIES.map (fun n =>
    { name := n,
      description := chars "Default " ++ n ++ chars " category",
      created_date := now })

/-- `utils.read_categories`: a missing file yields the built-in default
categories, not the empty list. -/
def read_categories (file : Option (List CategoryRow)) (now : Str) :
    List Category :=
  match file with
  | none => defaultCategoryRecords now
  | some rows =>
    rows.map (fun r =>
      { name := r.name, description := r.description,
        created_date := r.created_date })

/-! ## CSV export / import (`utils.py`) -/

/-- The header line written by `export_inventory_csv`. -/
def invHeader : Str :=
  chars "name,unit,quantity,par_level,category,unit_cost,vendors,last_updated"

/-- One exported data line:
`f"{name},{unit},{quantity},{par_level},{category},{unit_cost},{vendors},{last_updated}"`
(numbers rendered with `str`, no CSV quoting). -/
def itemLine (it : InventoryItem) : Str :=
  it.name ++ ',' :: it.unit ++ ',' :: floatStr it.quantity ++
  ',' :: intStr it.par_level ++ ',' :: it.category ++
  ',' :: floatStr it.unit_cost ++ ',' :: it.vendors ++
  ',' :: it.last_updated

/-- `utils.export_inventory_csv`: empty string for an empty inventory,
otherwise the header line and one line per item, each terminated by
a newline. -/
def export_inventory_csv (items : List InventoryItem) : Str :=
  if items.isEmpty then []
  else invHeader ++ '\n' ::
    items.foldr (fun it acc => itemLine it ++ '\n' :: acc) []

/-- The failure modes of `import_inventory_csv`, one per early-return
message of the source. -/
inductive ImportError where
  /-- "CSV must have at least a header and one data row" -/
  | tooFewLines : ImportError
  /-- "Missing required field: ..." -/
  | missingField (f : Str) : ImportError
  /-- "Row i: Number of values doesn't match header" -/
  | badRowLen (i : Nat) : ImportError
  /-- "Row i: Invalid data format" (a `ValueError` while building the item) -/
  | badRow (i : Nat) : ImportError
deriving DecidableEq, Repr

deriving instance DecidableEq for Except

/-- `dict(zip(header, values))[k]` (headers are pairwise distinct whenever
this is reached, so first-match lookup coincides with Python's
last-wins dict construction). -/
def lookupField (hdr vals : List Str) (k : Str) : Option Str :=
  ((hdr.zip vals).find? (fun p => p.1 = k)).map (fun p => p.2)

/-- The required fields checked by `import_inventory_csv`, in order. -/
def requiredFields : List Str :=
  [chars "name", chars "unit", chars "quantity", chars "par_level"]

/-- One data row of `import_inventory_csv` (1-based CSV row index `i`):
split on commas, check the value count, then build the item —
`quantity` with `int(...)`, `par_level` with `int(...)`, `unit_cost` with
`float(...)`, strings stripped, `last_updated` replaced by `now`. -/
def parseImportRow (hdr : List Str) (i : Nat) (line : Str) (now : Str) :
    Except ImportError InventoryItem :=
  let vals := pySplit ',' line
  if vals.length ≠ hdr.length then .error (.badRowLen i)
  else
    match lookupField hdr vals (chars "name"),
        lookupField hdr vals (chars "unit"),
        lookupField hdr vals (chars "quantity"),
        lookupField hdr vals (chars "par_level") with
    | some nm, some un, some qs, some ps =>
      match pyInt qs, pyInt ps,
          pyFloat ((lookupField hdr vals (chars "unit_cost")).getD
            (chars "0.0")) with
      | some q, some p, some c =>
        .ok { name := pyStrip nm, unit := pyStrip un, quantity := (q : Rat),
              par_level := p,
              category := pyStrip ((lookupField hdr vals
                (chars "category")).getD (chars "General")),
              unit_cost := c,
              vendors := pyStrip ((lookupField hdr vals
                (chars "vendors")).getD []),
              last_updated := now }
      | _, _, _ => .error (.badRow i)
    | _, _, _, _ => .error (.badRow i)

/-- The row loop of `import_inventory_csv` (`enumerate(lines[1:], 2)`):
rows are parsed in order and the first failure is returned. -/
def importRows (hdr : List Str) : Nat → List Str → Str →
    Except ImportError (List InventoryItem)
  | _, [], _ => .ok []
  | i, l :: t, now =>
    match parseImportRow hdr i l now with
    | .ok it => (importRows hdr (i + 1) t now).map (fun its => it :: its)
    | .error e => .error e

/-- The header check and row loop of `import_inventory_csv`: the first
required field missing from the header is reported, otherwise the data
rows are parsed. -/
def importHeaderRows (hdr : List Str) (rest : List Str) (now : Str) :
    Except ImportError (List InventoryItem) :=
  match requiredFields.find? (fun f => ¬ hdr.contains f) with
  | some f => .error (.missingField f)
  | none => importRows hdr 2 rest now

/-- `utils.import_inventory_csv`: strip the payload, split into lines,
check the header for the required fields, then parse the data rows.
On success the source writes the items with `write_inventory`; the parsed
items are returned here. -/
def import_inventory_csv (csvData : Str) (now : Str) :
    Except ImportError (List InventoryItem) :=
  match pySplit '\n' (pyStrip csvData) with
  | [] => .error .tooFewLines
  | [_] => .error .tooFewLines
  | hline :: rest => importHeaderRows (pySplit ',' hline) rest now

/-! ## Collection operations (`utils.py`) -/

/-- `utils.get_inventory_item`: first item with the given name. -/
def get_inventory_item (items : List InventoryItem) (name : Str) :
    Option InventoryItem :=
  items.find? (fun it => it.name = name)

/-- `utils.update_inventory_item`: replace the first item with the given
name (no change if absent). -/
def update_inventory_item (items : List InventoryItem) (name : Str)
    (updated : InventoryItem) : List InventoryItem :=
  match items with
  | [] => []
  | it :: t =>
    if it.name = name then updated :: t
    else it :: update_inventory_item t name updated

/-- `utils.get_vendor` helper: `utils.is_vendor_in_use` — linear scan of the
inventory for the vendor's name in any item's vendor list. -/
def is_vendor_in_use (items : List InventoryItem) (vendor_name : Str) :
    Bool :=
  items.any (fun it => (get_vendors it).contains vendor_name)

/-- `utils.delete_vendor`: keep every vendor whose name differs (the source
then rewrites the file and returns `True`). -/
def delete_vendor (vendors : List Vendor) (name : Str) : List Vendor :=
  vendors.filter (fun v => ¬ v.name = name)

/-- `utils.get_waste_entry`: entry at `entry_index` if `0 <= i < len`. -/
def get_waste_entry (entries : List WasteEntry) (i : Int) :
    Option WasteEntry :=
  if 0 ≤ i then entries.get? i.toNat else none

/-- `utils.update_waste_entry`: replace the entry at `entry_index` if it is
in range, otherwise leave the log unchanged (the source returns `False`). -/
def update_waste_entry (entries : List WasteEntry) (i : Int)
    (updated : WasteEntry) : List WasteEntry :=
  if 0 ≤ i then entries.set i.toNat updated else entries

/-! ## Waste archival cycle (`utils.py`)

The archival functions operate on the parsed collections; the state below
bundles the live waste log, the append-only report log, the inventory
(consulted for category lookups), and the archive directory (a list of
snapshots).  `now` is `datetime.now()` as epoch seconds. -/

/-- The mutable files touched by the archival cycle. -/
structure ArchState where
  wasteLog : List WasteEntry
  reports : List WeeklyWasteReport
  inventory : List InventoryItem
  archives : List (List WasteEntry)
deriving DecidableEq, Repr

/-- Python dict update `d[k] = d.get(k, 0) + v`: in-place update of an
existing key (keeping its position), append of a new one. -/
def dictAdd (d : List (Str × Rat)) (k : Str) (v : Rat) :
    List (Str × Rat) :=
  if d.any (fun p => p.1 = k) then
    d.map (fun p => if p.1 = k then (p.1, p.2 + v) else p)
  else d ++ [(k, v)]

/-- The category used for a waste entry by `generate_weekly_report`:
the item's category via the name-indexed inventory dict, else
`'Unknown'`. -/
def entryCategory (inventory : List InventoryItem) (e : WasteEntry) : Str :=
  match inventory.find? (fun it => it.name = e.item_name) with
  | some it => it.category
  | none => chars "Unknown"

/-- `utils.generate_weekly_report`: entry count, total waste value, and the
three breakdown dicts. -/
def generate_weekly_report (entries : List WasteEntry)
    (inventory : List InventoryItem) (week_start week_end : Int) :
    WeeklyWasteReport :=
  { week_start := week_start
    week_end := week_end
    total_entries := entries.length
    total_value := (entries.map waste_value).sum
    by_category := entries.foldl
      (fun d e => dictAdd d (entryCategory inventory e) (waste_value e)) []
    by_reason := entries.foldl
      (fun d e => dictAdd d e.reason (waste_value e)) []
    by_item := entries.foldl
      (fun d e => dictAdd d e.item_name (waste_value e)) [] }

/-- Parse the dates of all waste entries
(`datetime.strptime(entry.date, ...)` inside the `min(...)` generator);
any failure raises `ValueError` for the whole computation. -/
def parseEntryDates : List WasteEntry → Option (List Int)
  | [] => some []
  | e :: t => do
    let d ← parseDateTime e.date
    let ds ← parseEntryDates t
    pure (d :: ds)

/-- `min` of a non-empty list of timestamps. -/
def listMin : List Int → Int
  | [] => 0
  | x :: t => t.foldl min x

/-- `utils.should_archive_waste_log`: false for an empty log; otherwise
parse every entry's date (a `ValueError`/`TypeError` yields false) and test
`(datetime.now() - oldest).days >= 7` (`timedelta.days` is floor
division by 86400 seconds). -/
def should_archive_waste_log (now : Int) (st : ArchState) : Bool :=
  match st.wasteLog with
  | [] => false
  | es =>
    match parseEntryDates es with
    | none => false
    | some ds => 7 ≤ Int.fdiv (now - listMin ds) 86400

/-- `utils.archive_waste_log`: no-op on an empty log; otherwise append the
generated weekly report (`week_start = now - 7 days`, `week_end = now`) to
the report log, snapshot the live log into the archive directory, and
truncate the live log. -/
def archive_waste_log (now : Int) (st : ArchState) : ArchState :=
  if st.wasteLog.isEmpty then st
  else
    { st with
      wasteLog := []
      reports := st.reports ++
        [generate_weekly_report st.wasteLog st.inventory
          (now - 7 * 86400) now]
      archives := st.archives ++ [st.wasteLog] }

/-- `utils.check_and_archive_if_needed`: archive when the check says so;
return whether an archival happened.  All exceptions are swallowed
(`except Exception: return False`), so the enclosing request never sees an
error. -/
def check_and_archive_if_needed (now : Int) (st : ArchState) :
    ArchState × Bool :=
  if should_archive_waste_log now st then (archive_waste_log now st, true)
  else (st, false)

/-! ## Route actions (`routes.py`) -/

/-- Outcome of the vendor-delete branch of the `/vendors` route. -/
inductive VendorDeleteOutcome where
  /-- "Vendor name is required." -/
  | emptyName : VendorDeleteOutcome
  /-- "Vendor ... is in use and cannot be deleted." -/
  | inUse : VendorDeleteOutcome
  /-- "Vendor ... deleted successfully." -/
  | deleted : VendorDeleteOutcome
deriving DecidableEq, Repr

/-- The `action == 'delete'` branch of the `/vendors` route: strip the
submitted name, reject an empty name, reject a vendor in use (vendor file
untouched), otherwise delete. -/
def vendors_delete_action (inventory : List InventoryItem)
    (vendors : List Vendor) (rawName : Str) :
    List Vendor × VendorDeleteOutcome :=
  let vendor_name := pyStrip rawName
  if vendor_name.isEmpty then (vendors, .emptyName)
  else if is_vendor_in_use inventory vendor_name then (vendors, .inUse)
  else (delete_vendor vendors vendor_name, .deleted)

/-- The `action == 'add'` branch of the `/waste_log` route, restricted to
its persistent effects: append the new entry (unit cost captured from the
inventory item if it exists) and, if the item exists, decrement its
quantity with `max(0, item.quantity - quantity)` and stamp
`last_updated`. -/
def waste_add_action (inventory : List InventoryItem)
    (wasteLog : List WasteEntry) (rawName : Str) (quantity : Rat)
    (unit reason : Str) (now username : Str) :
    List InventoryItem × List WasteEntry :=
  let item_name := pyStrip rawName
  let item := get_inventory_item inventory item_name
  let entry : WasteEntry :=
    { item_name := item_name, quantity := quantity, unit := pyStrip unit,
      reason := pyStrip reason, date := now, logged_by := username,
      unit_cost := (item.map (fun it => it.unit_cost)).getD 0 }
  let wasteLog' := wasteLog ++ [entry]
  match item with
  | none => (inventory, wasteLog')
  | some it =>
    (update_inventory_item inventory item_name
      { it with quantity := max 0 (it.quantity - quantity),
                last_updated := now },
     wasteLog')

/-- The inventory-restore step at the start of the `action == 'edit'`
branch of `/waste_log`: add the original entry's quantity back onto its
item (without touching `last_updated`). -/
def waste_edit_restore (inventory : List InventoryItem)
    (wasteLog : List WasteEntry) (entry_index : Int) :
    List InventoryItem :=
  match get_waste_entry wasteLog entry_index with
  | none => inventory
  | some oe =>
    match get_inventory_item inventory oe.item_name with
    | none => inventory
    | some oit =>
      update_inventory_item inventory oe.item_name
        { oit with quantity := oit.quantity + oe.quantity }

/-- The `action == 'edit'` branch of `/waste_log`: restore the original
entry's quantity, rebuild the entry from the form, and if the index is in
range replace it and apply the clamped decrement to the (possibly new)
item. -/
def waste_edit_action (inventory : List InventoryItem)
    (wasteLog : List WasteEntry) (entry_index : Int) (rawName : Str)
    (quantity : Rat) (unit reason : Str) (now username : Str) :
    List InventoryItem × List WasteEntry :=
  let inv1 := waste_edit_restore inventory wasteLog entry_index
  let item_name := pyStrip rawName
  let item := get_inventory_item inv1 item_name
  let updated_entry : WasteEntry :=
    { item_name := item_name, quantity := quantity, unit := pyStrip unit,
      reason := pyStrip reason, date := now, logged_by := username,
      unit_cost := (item.map (fun it => it.unit_cost)).getD 0 }
  if 0 ≤ entry_index ∧ entry_index.toNat < wasteLog.length then
    let wasteLog' := update_waste_entry wasteLog entry_index updated_entry
    match item with
    | none => (inv1, wasteLog')
    | some it =>
      (update_inventory_item inv1 item_name
        { it with quantity := max 0 (it.quantity - quantity),
                  last_updated := now },
       wasteLog')
  else (inv1, wasteLog)

/-- The `/update_count/<item_name>` route: store the submitted count
verbatim as the new quantity (no clamping) and stamp `last_updated`;
an unknown item leaves the inventory unchanged. -/
def update_count (inventory : List InventoryItem) (item_name : Str)
    (new_count : Rat) (now : Str) : List InventoryItem :=
  match get_inventory_item inventory item_name with
  | none => inventory
  | some it =>
    update_inventory_item inventory item_name
      { it with quantity := new_count, last_updated := now }

/-! ## Helper lemmas -/

/-- `find?` skips a prefix on which the predicate fails. -/
theorem find?_append_of_none {α : Type} (p : α → Bool) (pre l : List α)
    (h : ∀ u ∈ pre, p u = false) :
    (pre ++ l).find? p = l.find? p := by
  induction pre with
  | nil => rfl
  | cons a t ih =>
    have ha := h a (by simp)
    rw [List.cons_append, List.find?_cons_of_neg _ (by simp [ha])]
    exact ih (fun u hu => h u (by simp [hu]))

/-- Structure of `update_inventory_item` on a list where the name occurs:
the first occurrence is replaced in place. -/
theorem update_inventory_item_split (items : List InventoryItem) (nm : Str)
    (newIt it : InventoryItem)
    (h : get_inventory_item items nm = some it) :
    ∃ pre post, items = pre ++ it :: post ∧ it.name = nm ∧
      (∀ u ∈ pre, ¬ u.name = nm) ∧
      update_inventory_item items nm newIt = pre ++ newIt :: post := by
  induction items with
  | nil => simp [get_inventory_item] at h
  | cons a t ih =>
    by_cases ha : a.name = nm
    · have : a = it := by
        simp [get_inventory_item, List.find?, ha] at h
        exact h
      subst this
      exact ⟨[], t, by simp [update_inventory_item, ha], ha, by simp,
        by simp [update_inventory_item, ha]⟩
    · have h' : get_inventory_item t nm = some it := by
        simpa [get_inventory_item, List.find?, ha] using h
      obtain ⟨pre, post, he, hn, hpre, hu⟩ := ih h'
      refine ⟨a :: pre, post, by simp [he], hn, ?_, ?_⟩
      · intro u hu'
        rcases List.mem_cons.mp hu' with rfl | hmem
        · exact ha
        · exact hpre u hmem
      · simp [update_inventory_item, ha, hu]

/-- After replacing the first occurrence, lookup finds the replacement
(provided the replacement keeps the name). -/
theorem get_update_inventory_item (items : List InventoryItem) (nm : Str)
    (newIt it : InventoryItem)
    (h : get_inventory_item items nm = some it) (hn : newIt.name = nm) :
    get_inventory_item (update_inventory_item items nm newIt) nm
      = some newIt := by
  obtain ⟨pre, post, _, _, hpre, hu⟩ :=
    update_inventory_item_split items nm newIt it h
  rw [hu]
  unfold get_inventory_item
  rw [find?_append_of_none _ pre _
    (fun u hu' => by simpa using hpre u hu')]
  simp [List.find?, hn]

/-! ### Decimal rendering and parsing round trips -/

theorem valDigits_natDigitsAux :
    ∀ fuel n, n ≤ fuel → valDigits (natDigitsAux fuel n) = n := by
  intro fuel
  induction fuel with
  | zero =>
    intro n h
    interval_cases n
    rfl
  | succ f ih =>
    intro n h
    match n with
    | 0 => rfl
    | m + 1 =>
      have hdiv : (m + 1) / 10 ≤ f := by
        have := Nat.div_lt_self (Nat.succ_pos m) (by norm_num : 1 < 10)
        omega
      have hstep : natDigitsAux (f + 1) (m + 1) =
          ((m + 1) % 10) :: natDigitsAux f ((m + 1) / 10) := rfl
      rw [hstep]
      show (m + 1) % 10 + 10 * valDigits (natDigitsAux f ((m + 1) / 10))
        = m + 1
      rw [ih _ hdiv]
      omega

theorem natDigitsAux_lt_ten :
    ∀ fuel n d, d ∈ natDigitsAux fuel n → d < 10 := by
  intro fuel
  induction fuel with
  | zero =>
    intro n d hd
    cases n <;> simp [natDigitsAux] at hd
  | succ f ih =>
    intro n d hd
    match n with
    | 0 => simp [natDigitsAux] at hd
    | m + 1 =>
      have hstep : natDigitsAux (f + 1) (m + 1) =
          ((m + 1) % 10) :: natDigitsAux f ((m + 1) / 10) := rfl
      rw [hstep] at hd
      rcases List.mem_cons.mp hd with rfl | hm
      · exact Nat.mod_lt _ (by norm_num)
      · exact ih _ d hm

theorem natDigitsAux_ne_nil (fuel n : Nat) (h0 : 0 < n) (h : n ≤ fuel) :
    natDigitsAux fuel n ≠ [] := by
  match fuel, n with
  | 0, n => omega
  | f + 1, 0 => omega
  | f + 1, m + 1 => exact fun hc => List.noConfusion hc

theorem natDigitsAux_length_le :
    ∀ fuel n k, n ≤ fuel → n < 10 ^ k →
      (natDigitsAux fuel n).length ≤ k := by
  intro fuel
  induction fuel with
  | zero =>
    intro n k h hk
    interval_cases n
    simp [natDigitsAux]
  | succ f ih =>
    intro n k h hk
    match n with
    | 0 => simp [natDigitsAux]
    | m + 1 =>
      match k with
      | 0 => simp at hk
      | j + 1 =>
        have hstep : natDigitsAux (f + 1) (m + 1) =
            ((m + 1) % 10) :: natDigitsAux f ((m + 1) / 10) := rfl
        rw [hstep]
        have hdiv : (m + 1) / 10 ≤ f := by
          have := Nat.div_lt_self (Nat.succ_pos m) (by norm_num : 1 < 10)
          omega
        have hdivk : (m + 1) / 10 < 10 ^ j := by
          rw [Nat.div_lt_iff_lt_mul (by norm_num : 0 < 10)]
          calc m + 1 < 10 ^ (j + 1) := hk
            _ = 10 ^ j * 10 := by ring
        simpa using ih _ j hdiv hdivk

theorem charDigit_digitChar (d : Nat) (h : d < 10) :
    charDigit (digitChar d) = some d := by
  interval_cases d <;> decide

/-- Digit characters are plain: not separators, signs, points or spaces. -/
theorem digitChar_plain (d : Nat) (h : d < 10) :
    pyIsSpace (digitChar d) = false ∧ digitChar d ≠ '.' ∧
    digitChar d ≠ ',' ∧ digitChar d ≠ '\n' ∧ digitChar d ≠ '-' ∧
    digitChar d ≠ '+' := by
  interval_cases d <;> decide

theorem mem_natStr (c : Char) (n : Nat) (hc : c ∈ natStr n) :
    ∃ d, d < 10 ∧ c = digitChar d := by
  unfold natStr at hc
  by_cases h0 : n = 0
  · refine ⟨0, by norm_num, ?_⟩
    rw [h0] at hc
    simp at hc
    rw [hc]
    decide
  · rw [if_neg h0] at hc
    obtain ⟨d, hd, rfl⟩ := List.mem_map.mp hc
    exact ⟨d, natDigitsAux_lt_ten n n d (List.mem_reverse.mp hd), rfl⟩

/-- All characters of `natStr` are plain digit characters. -/
theorem natStr_plain (c : Char) (n : Nat) (hc : c ∈ natStr n) :
    pyIsSpace c = false ∧ c ≠ '.' ∧ c ≠ ',' ∧ c ≠ '\n' ∧ c ≠ '-' ∧
    c ≠ '+' := by
  obtain ⟨d, hd, rfl⟩ := mem_natStr c n hc
  exact digitChar_plain d hd

theorem natStr_ne_nil (n : Nat) : natStr n ≠ [] := by
  unfold natStr
  by_cases h0 : n = 0
  · simp [h0]
  · rw [if_neg h0]
    intro hc
    have h1 : natDigitsAux n n ≠ [] :=
      natDigitsAux_ne_nil n n (Nat.pos_of_ne_zero h0) le_rfl
    simp at hc
    exact h1 hc

theorem charsToDigits_map (ds : List Nat) (h : ∀ d ∈ ds, d < 10) :
    charsToDigits (ds.map digitChar) = some ds := by
  induction ds with
  | nil => rfl
  | cons d t ih =>
    have hd := charDigit_digitChar d (h d (by simp))
    have ht := ih (fun x hx => h x (by simp [hx]))
    simp only [List.map_cons, charsToDigits, hd, ht]

theorem foldl_reverse_valDigits (ds : List Nat) :
    ∀ a, ds.reverse.foldl (fun x d => 10 * x + d) a =
      a * 10 ^ ds.length + valDigits ds := by
  induction ds with
  | nil => intro a; simp [valDigits]
  | cons d t ih =>
    intro a
    rw [List.reverse_cons, List.foldl_append, ih]
    simp only [List.foldl_cons, List.foldl_nil, valDigits,
      List.length_cons]
    ring

theorem parseNatChars_natStr (n : Nat) : parseNatChars (natStr n) = some n := by
  by_cases h0 : n = 0
  · rw [h0]; decide
  · have hne := natStr_ne_nil n
    unfold parseNatChars
    rw [if_neg (by simpa using hne)]
    conv in charsToDigits _ =>
      rw [show natStr n = (natDigitsAux n n).reverse.map digitChar by
        unfold natStr natDigits; rw [if_neg h0]]
    rw [charsToDigits_map _
      (fun d hd => natDigitsAux_lt_ten n n d (List.mem_reverse.mp hd))]
    simp only [Option.map_some', Option.some.injEq]
    rw [foldl_reverse_valDigits (natDigitsAux n n) 0]
    simp [valDigits_natDigitsAux n n le_rfl]

theorem charsToDigits_natStr (n : Nat) :
    ∃ ds, charsToDigits (natStr n) = some ds ∧
      ds.foldl (fun x d => 10 * x + d) 0 = n := by
  have h := parseNatChars_natStr n
  unfold parseNatChars at h
  rw [if_neg (by simpa using natStr_ne_nil n)] at h
  cases hc : charsToDigits (natStr n) with
  | none => rw [hc] at h; simp at h
  | some ds =>
    rw [hc] at h
    simp only [Option.map_some', Option.some.injEq] at h
    exact ⟨ds, rfl, h⟩

theorem charsToDigits_append (x y : Str) (dx dy : List Nat)
    (hx : charsToDigits x = some dx) (hy : charsToDigits y = some dy) :
    charsToDigits (x ++ y) = some (dx ++ dy) := by
  induction x generalizing dx with
  | nil =>
    simp only [charsToDigits, Option.some.injEq] at hx
    subst hx
    simpa using hy
  | cons c t ih =>
    cases hc : charDigit c with
    | none => rw [charsToDigits, hc] at hx; simp at hx
    | some d =>
      cases ht : charsToDigits t with
      | none => rw [charsToDigits, hc, ht] at hx; simp at hx
      | some dt =>
        rw [charsToDigits, hc, ht] at hx
        simp only [Option.some.injEq] at hx
        subst hx
        rw [List.cons_append, charsToDigits, hc, ih dt ht]
        rfl

theorem charsToDigits_replicate_zero (j : Nat) :
    charsToDigits (List.replicate j '0') = some (List.replicate j 0) := by
  induction j with
  | zero => rfl
  | succ i ih =>
    simp only [List.replicate_succ, charsToDigits, ih,
      show charDigit '0' = some 0 from by decide]

theorem foldl_replicate_zero (j : Nat) :
    (List.replicate j 0).foldl (fun x d => 10 * x + d) 0 = 0 := by
  induction j with
  | zero => rfl
  | succ i ih => simpa [List.replicate_succ] using ih

theorem parseNatChars_pad (j n : Nat) :
    parseNatChars (List.replicate j '0' ++ natStr n) = some n := by
  obtain ⟨ds, hds, hval⟩ := charsToDigits_natStr n
  have hcat := charsToDigits_append _ _ _ _
    (charsToDigits_replicate_zero j) hds
  unfold parseNatChars
  rw [if_neg (by simp [natStr_ne_nil n])]
  rw [hcat]
  simp only [Option.map_some', Option.some.injEq]
  rw [List.foldl_append, foldl_replicate_zero, hval]

theorem natStr_length_le (n k : Nat) (h1 : 1 ≤ k) (h : n < 10 ^ k) :
    (natStr n).length ≤ k := by
  unfold natStr
  by_cases h0 : n = 0
  · simpa [h0] using h1
  · rw [if_neg h0]
    simpa using natDigitsAux_length_le n n k le_rfl h

/-! ### Stripping, signs, and the float/int round trips -/

theorem dropWhile_of_forall_false (p : Char → Bool) (s : Str)
    (h : ∀ c ∈ s, p c = false) : s.dropWhile p = s := by
  cases s with
  | nil => rfl
  | cons c t => simp [List.dropWhile_cons, h c (by simp)]

theorem pyStrip_of_nospace (s : Str) (h : ∀ c ∈ s, pyIsSpace c = false) :
    pyStrip s = s := by
  unfold pyStrip stripRight
  rw [dropWhile_of_forall_false _ _ h]
  rw [dropWhile_of_forall_false _ _
    (fun c hc => h c (List.mem_reverse.mp hc))]
  simp

theorem takeWhile_append_stop (p : Char → Bool) (x : Str) (y : Char)
    (ys : Str) (hx : ∀ c ∈ x, p c = true) (hy : p y = false) :
    (x ++ y :: ys).takeWhile p = x ∧
    (x ++ y :: ys).dropWhile p = y :: ys := by
  induction x with
  | nil => simp [List.takeWhile_cons, List.dropWhile_cons, hy]
  | cons a t ih =>
    have ha := hx a (by simp)
    have ⟨iht, ihd⟩ := ih (fun c hc => hx c (by simp [hc]))
    constructor
    · simp [List.takeWhile_cons, ha, iht]
    · simp [List.dropWhile_cons, ha, ihd]

theorem pyInt_eq_default (s : Str) (hstrip : pyStrip s = s)
    (hhd : ∀ rest, s ≠ '-' :: rest ∧ s ≠ '+' :: rest) :
    pyInt s = (parseNatChars s).map (fun n => (n : Int)) := by
  unfold pyInt
  rw [hstrip]
  split
  · next a => exact absurd rfl (hhd a).1
  · next a => exact absurd rfl (hhd a).2
  · rfl

theorem pyFloat_eq_body (s : Str) (hstrip : pyStrip s = s)
    (hhd : ∀ rest, s ≠ '-' :: rest ∧ s ≠ '+' :: rest) :
    pyFloat s = pyFloatBody 1 s := by
  unfold pyFloat
  rw [hstrip]
  split
  · next a => exact absurd rfl (hhd a).1
  · next a => exact absurd rfl (hhd a).2
  · rfl

/-- Heads of `natStr` strings are digits, hence not signs. -/
theorem natStr_head_not_sign (n : Nat) (x : Str) :
    ∀ rest, natStr n ++ x ≠ '-' :: rest ∧ natStr n ++ x ≠ '+' :: rest := by
  intro rest
  cases hn : natStr n with
  | nil => exact absurd hn (natStr_ne_nil n)
  | cons c t =>
    have hc : c ∈ natStr n := by rw [hn]; simp
    have ⟨_, _, _, _, hminus, hplus⟩ := natStr_plain c n hc
    constructor
    · intro h
      simp only [List.cons_append, List.cons.injEq] at h
      exact hminus h.1
    · intro h
      simp only [List.cons_append, List.cons.injEq] at h
      exact hplus h.1

theorem charsToDigits_none_of_bad (s : Str) (c : Char) (hc : c ∈ s)
    (hbad : charDigit c = none) : charsToDigits s = none := by
  induction s with
  | nil => cases hc
  | cons a t ih =>
    rcases List.mem_cons.mp hc with rfl | hm
    · rw [charsToDigits, hbad]
    · rw [charsToDigits, ih hm]
      cases charDigit a <;> rfl

theorem parseNatChars_none_of_bad (s : Str) (c : Char) (hc : c ∈ s)
    (hbad : charDigit c = none) : parseNatChars s = none := by
  unfold parseNatChars
  rw [charsToDigits_none_of_bad s c hc hbad]
  split <;> rfl

theorem pyInt_natStr (n : Nat) : pyInt (natStr n) = some (n : Int) := by
  have hstrip : pyStrip (natStr n) = natStr n :=
    pyStrip_of_nospace _ (fun c hc => (natStr_plain c n hc).1)
  have hhd : ∀ rest, natStr n ≠ '-' :: rest ∧ natStr n ≠ '+' :: rest := by
    intro rest
    have := natStr_head_not_sign n [] rest
    simpa using this
  rw [pyInt_eq_default _ hstrip hhd, parseNatChars_natStr]
  rfl

theorem pyInt_intStr (i : Int) : pyInt (intStr i) = some i := by
  unfold intStr
  by_cases hneg : i < 0
  · rw [if_pos hneg]
    have hstrip : pyStrip ('-' :: natStr i.natAbs) = '-' :: natStr i.natAbs := by
      apply pyStrip_of_nospace
      intro c hc
      rcases List.mem_cons.mp hc with rfl | hm
      · decide
      · exact (natStr_plain c _ hm).1
    unfold pyInt
    rw [hstrip]
    show (parseNatChars (natStr i.natAbs)).map (fun n => -(n : Int)) = some i
    rw [parseNatChars_natStr]
    have h1 : -((i.natAbs : Int)) = i := by omega
    simp [h1, abs_of_neg hneg]
  · rw [if_neg hneg]
    rw [pyInt_natStr i.natAbs]
    simp only [Option.some.injEq]
    omega

theorem decExp_den (q : Rat) (k : Nat) (h : decExp q = some k) :
    (q * 10 ^ k).den = 1 := by
  have h2 := List.find?_some h
  simpa using h2

/-- The shape of `floatStr` when a decimal exponent is found. -/
theorem floatStr_eq (q : Rat) (k : Nat) (hk : decExp q = some k) :
    floatStr q =
      (if (q * 10 ^ k).num < 0 then ['-'] else []) ++
      (if k = 0 then natStr (q * 10 ^ k).num.natAbs ++ chars ".0"
       else natStr ((q * 10 ^ k).num.natAbs / 10 ^ k) ++
         '.' :: (List.replicate
             (k - (natStr ((q * 10 ^ k).num.natAbs % 10 ^ k)).length) '0' ++
           natStr ((q * 10 ^ k).num.natAbs % 10 ^ k))) := by
  unfold floatStr
  rw [hk]
  by_cases h0 : k = 0
  · simp [h0]
  · simp [h0]

/-- Evaluation of the unsigned float parser on `<digits>.<digits>`. -/
theorem pyFloatBody_eval (sgn : Int) (n : Nat) (fp : Str) (lo : Nat)
    (hfp : parseNatChars fp = some lo) :
    pyFloatBody sgn (natStr n ++ '.' :: fp) =
      some ((sgn : Rat) *
        ((n : Rat) + (lo : Rat) / (10 : Rat) ^ fp.length)) := by
  have hts := takeWhile_append_stop (fun c => ¬ c = '.') (natStr n) '.' fp
    (fun c hc => by simp [(natStr_plain c n hc).2.1])
    (by simp)
  unfold pyFloatBody
  rw [hts.2, hts.1, parseNatChars_natStr]
  show (do
    let n2 ← some n
    let f ← parseNatChars fp
    pure ((sgn : Rat) *
      ((n2 : Rat) + (f : Rat) / (10 : Rat) ^ fp.length))) =
    some ((sgn : Rat) * ((n : Rat) + (lo : Rat) / (10 : Rat) ^ fp.length))
  rw [hfp]
  rfl

/-- Characters of the fractional payload of `floatStr` are not spaces. -/
theorem pad_natStr_nospace (j n : Nat) (c : Char)
    (hc : c ∈ List.replicate j '0' ++ natStr n) : pyIsSpace c = false := by
  rcases List.mem_append.mp hc with h1 | h2
  · rw [List.eq_of_mem_replicate h1]; decide
  · exact (natStr_plain c n h2).1

/-- The full float round trip: parsing the rendered decimal recovers the
exact value. -/
theorem pyFloat_floatStr (q : Rat) (hq : FiniteDec q) :
    pyFloat (floatStr q) = some q := by
  unfold FiniteDec at hq
  cases hk : decExp q with
  | none => rw [hk] at hq; simp at hq
  | some k =>
    have hden := decExp_den q k hk
    have hcast : (((q * 10 ^ k).num : Rat)) = q * 10 ^ k :=
      Rat.coe_int_num_of_den_eq_one hden
    rw [floatStr_eq q k hk]
    by_cases h0 : k = 0
    · subst h0
      have hq1 : ((q.num : Rat)) = q := by simpa using hcast
      have hqm : (q * 10 ^ 0).num = q.num := by norm_num
      rw [hqm]
      have hshape : natStr q.num.natAbs ++ chars ".0" =
          natStr q.num.natAbs ++ '.' :: ['0'] := rfl
      by_cases hs : q.num < 0
      · rw [if_pos hs, if_pos rfl, hshape]
        have hstrip : pyStrip ('-' :: (natStr q.num.natAbs ++ '.' :: ['0'])) =
            '-' :: (natStr q.num.natAbs ++ '.' :: ['0']) := by
          apply pyStrip_of_nospace
          intro c hc
          rcases List.mem_cons.mp hc with rfl | hm
          · decide
          rcases List.mem_append.mp hm with h1 | h2
          · exact (natStr_plain c _ h1).1
          rcases List.mem_cons.mp h2 with rfl | h3
          · decide
          · simp at h3; rw [h3]; decide
        show pyFloat ('-' :: (natStr q.num.natAbs ++ '.' :: ['0'])) = some q
        unfold pyFloat
        rw [hstrip]
        show pyFloatBody (-1) (natStr q.num.natAbs ++ '.' :: ['0']) = some q
        rw [pyFloatBody_eval (-1) q.num.natAbs ['0'] 0 (by decide)]
        congr 1
        have habs : ((q.num.natAbs : Rat)) = -((q.num : Rat)) := by
          rw [Int.cast_natAbs, abs_of_neg hs]
          push_cast
          ring
        rw [habs, hq1]
        push_cast
        ring
      · rw [if_neg hs, if_pos rfl, hshape]
        have hnn : (0 : Int) ≤ q.num := le_of_not_lt hs
        have hstrip : pyStrip (natStr q.num.natAbs ++ '.' :: ['0']) =
            natStr q.num.natAbs ++ '.' :: ['0'] := by
          apply pyStrip_of_nospace
          intro c hc
          rcases List.mem_append.mp hc with h1 | h2
          · exact (natStr_plain c _ h1).1
          rcases List.mem_cons.mp h2 with rfl | h3
          · decide
          · simp at h3; rw [h3]; decide
        show pyFloat ([] ++ (natStr q.num.natAbs ++ '.' :: ['0'])) = some q
        rw [List.nil_append]
        rw [pyFloat_eq_body _ hstrip (natStr_head_not_sign _ _)]
        rw [pyFloatBody_eval 1 q.num.natAbs ['0'] 0 (by decide)]
        congr 1
        have habs : ((q.num.natAbs : Rat)) = ((q.num : Rat)) := by
          rw [Int.cast_natAbs, abs_of_nonneg hnn]
        rw [habs, hq1]
        push_cast
        ring
    · -- k ≥ 1
      have hk1 : 1 ≤ k := Nat.one_le_iff_ne_zero.mpr h0
      set m : Int := (q * 10 ^ k).num with hm
      set lo : Nat := m.natAbs % 10 ^ k with hlo
      set hi : Nat := m.natAbs / 10 ^ k with hhi
      set fp : Str := List.replicate (k - (natStr lo).length) '0' ++
        natStr lo with hfp
      have hfpparse : parseNatChars fp = some lo := parseNatChars_pad _ _
      have hlolt : lo < 10 ^ k :=
        Nat.mod_lt _ (Nat.pos_pow_of_pos k (by norm_num))
      have hlen : fp.length = k := by
        rw [hfp]
        have := natStr_length_le lo k hk1 hlolt
        simp [List.length_replicate]
        omega
      have hdmn : hi * 10 ^ k + lo = m.natAbs := by
        rw [hhi, hlo, Nat.mul_comm]
        exact Nat.div_add_mod m.natAbs (10 ^ k)
      have hdm : (hi : Rat) * 10 ^ k + lo = (m.natAbs : Rat) := by
        exact_mod_cast hdmn
      have hpow : ((10 : Rat) ^ k) ≠ 0 := by positivity
      have hqval : q = (m : Rat) / 10 ^ k := by
        rw [eq_div_iff hpow, hcast]
      have hvalue : (hi : Rat) + (lo : Rat) / 10 ^ fp.length =
          (m.natAbs : Rat) / 10 ^ k := by
        rw [hlen, eq_div_iff hpow]
        rw [add_mul, div_mul_cancel₀ _ hpow]
        exact hdm
      by_cases hs : m < 0
      · rw [if_pos hs, if_neg h0]
        have hstrip : pyStrip ('-' :: (natStr hi ++ '.' :: fp)) =
            '-' :: (natStr hi ++ '.' :: fp) := by
          apply pyStrip_of_nospace
          intro c hc
          rcases List.mem_cons.mp hc with rfl | hm2
          · decide
          rcases List.mem_append.mp hm2 with h1 | h2
          · exact (natStr_plain c _ h1).1
          rcases List.mem_cons.mp h2 with rfl | h3
          · decide
          · exact pad_natStr_nospace _ _ c h3
        show pyFloat ('-' :: (natStr hi ++ '.' :: fp)) = some q
        unfold pyFloat
        rw [hstrip]
        show pyFloatBody (-1) (natStr hi ++ '.' :: fp) = some q
        rw [pyFloatBody_eval (-1) hi fp lo hfpparse]
        congr 1
        rw [hvalue, hqval]
        have habs : ((m.natAbs : Rat)) = -((m : Rat)) := by
          rw [Int.cast_natAbs, abs_of_neg hs]
          push_cast
          ring
        rw [habs]
        push_cast
        ring
      · rw [if_neg hs, if_neg h0]
        have hstrip : pyStrip (natStr hi ++ '.' :: fp) =
            natStr hi ++ '.' :: fp := by
          apply pyStrip_of_nospace
          intro c hc
          rcases List.mem_append.mp hc with h1 | h2
          · exact (natStr_plain c _ h1).1
          rcases List.mem_cons.mp h2 with rfl | h3
          · decide
          · exact pad_natStr_nospace _ _ c h3
        show pyFloat ([] ++ (natStr hi ++ '.' :: fp)) = some q
        rw [List.nil_append]
        rw [pyFloat_eq_body _ hstrip (natStr_head_not_sign _ _)]
        rw [pyFloatBody_eval 1 hi fp lo hfpparse]
        congr 1
        rw [hvalue, hqval]
        have habs : ((m.natAbs : Rat)) = ((m : Rat)) := by
          rw [Int.cast_natAbs, abs_of_nonneg (le_of_not_lt hs)]
        rw [habs]
        push_cast
        ring

theorem parseNatChars_dot_none (s : Str) (h : '.' ∈ s) :
    parseNatChars s = none :=
  parseNatChars_none_of_bad s '.' h (by decide)

/-- `int()` rejects any sign-prefixed digit string containing a point. -/
theorem pyInt_sign_payload_none (sgn : Str) (n : Nat) (y : Str)
    (hsgn : sgn = ['-'] ∨ sgn = [])
    (hdot : '.' ∈ y)
    (hy : ∀ c ∈ y, pyIsSpace c = false) :
    pyInt (sgn ++ (natStr n ++ y)) = none := by
  have hstrip : pyStrip (sgn ++ (natStr n ++ y)) = sgn ++ (natStr n ++ y) := by
    apply pyStrip_of_nospace
    intro c hc
    rcases List.mem_append.mp hc with h1 | h2
    · rcases hsgn with rfl | rfl
      · simp at h1; rw [h1]; decide
      · cases h1
    · rcases List.mem_append.mp h2 with ha | hb
      · exact (natStr_plain c n ha).1
      · exact hy c hb
  have hnone : parseNatChars (natStr n ++ y) = none :=
    parseNatChars_dot_none _ (List.mem_append.mpr (Or.inr hdot))
  rcases hsgn with rfl | rfl
  · unfold pyInt
    rw [hstrip]
    show (parseNatChars (natStr n ++ y)).map (fun x => -(x : Int)) = none
    rw [hnone]
    rfl
  · rw [List.nil_append] at hstrip ⊢
    rw [pyInt_eq_default _ hstrip (natStr_head_not_sign n y), hnone]
    rfl

/-- `int()` always rejects the decimal rendering of a float: the rendered
string contains a point (or is `nan`). -/
theorem pyInt_floatStr (q : Rat) : pyInt (floatStr q) = none := by
  cases hk : decExp q with
  | none =>
    rw [show floatStr q = chars "nan" from by unfold floatStr; rw [hk]]
    decide
  | some k =>
    rw [floatStr_eq q k hk]
    have hsgn : (if (q * 10 ^ k).num < 0 then ['-'] else ([] : Str)) = ['-'] ∨
        (if (q * 10 ^ k).num < 0 then ['-'] else ([] : Str)) = [] := by
      by_cases hs : (q * 10 ^ k).num < 0 <;> simp [hs]
    by_cases h0 : k = 0
    · rw [if_pos h0]
      apply pyInt_sign_payload_none _ _ (chars ".0") hsgn (by decide)
      intro c hc
      simp [chars] at hc
      rcases hc with rfl | rfl <;> decide
    · rw [if_neg h0]
      apply pyInt_sign_payload_none _ _ _ hsgn (by simp)
      intro c hc
      rcases List.mem_cons.mp hc with rfl | hm
      · decide
      · exact pad_natStr_nospace _ _ c hm

/-- The decimal rendering of a float never contains a separator
character. -/
theorem floatStr_clean (q : Rat) :
    ∀ c ∈ floatStr q, c ≠ ',' ∧ c ≠ '\n' := by
  intro c hc
  cases hk : decExp q with
  | none =>
    rw [show floatStr q = chars "nan" from by unfold floatStr; rw [hk]] at hc
    simp [chars] at hc
    rcases hc with rfl | rfl | rfl <;> exact ⟨by decide, by decide⟩
  | some k =>
    rw [floatStr_eq q k hk] at hc
    rcases List.mem_append.mp hc with h1 | h2
    · by_cases hs : (q * 10 ^ k).num < 0
      · rw [if_pos hs] at h1
        simp at h1
        rw [h1]
        exact ⟨by decide, by decide⟩
      · rw [if_neg hs] at h1
        cases h1
    · by_cases h0 : k = 0
      · rw [if_pos h0] at h2
        rcases List.mem_append.mp h2 with ha | hb
        · have := natStr_plain c _ ha
          exact ⟨this.2.2.1, this.2.2.2.1⟩
        · simp [chars] at hb
          rcases hb with rfl | rfl <;> exact ⟨by decide, by decide⟩
      · rw [if_neg h0] at h2
        rcases List.mem_append.mp h2 with ha | hb
        · have := natStr_plain c _ ha
          exact ⟨this.2.2.1, this.2.2.2.1⟩
        rcases List.mem_cons.mp hb with rfl | hm
        · exact ⟨by decide, by decide⟩
        rcases List.mem_append.mp hm with hp | hq2
        · rw [List.eq_of_mem_replicate hp]
          exact ⟨by decide, by decide⟩
        · have := natStr_plain c _ hq2
          exact ⟨this.2.2.1, this.2.2.2.1⟩

/-- The decimal rendering of an int never contains a separator
character. -/
theorem intStr_clean (i : Int) :
    ∀ c ∈ intStr i, c ≠ ',' ∧ c ≠ '\n' := by
  intro c hc
  unfold intStr at hc
  by_cases hs : i < 0
  · rw [if_pos hs] at hc
    rcases List.mem_cons.mp hc with rfl | hm
    · exact ⟨by decide, by decide⟩
    · have := natStr_plain c _ hm
      exact ⟨this.2.2.1, this.2.2.2.1⟩
  · rw [if_neg hs] at hc
    have := natStr_plain c _ hc
    exact ⟨this.2.2.1, this.2.2.2.1⟩

/-! ### Structure of split and strip -/

theorem pySplit_cons (sep c : Char) (s : Str) :
    pySplit sep (c :: s) =
      match pySplit sep s with
      | [] => [[c]]
      | g :: rest =>
        if c = sep then [] :: g :: rest else (c :: g) :: rest := rfl

theorem pySplit_ne_nil (sep : Char) (s : Str) : pySplit sep s ≠ [] := by
  induction s with
  | nil => simp [pySplit]
  | cons c t ih =>
    rw [pySplit_cons]
    cases hps : pySplit sep t with
    | nil => simp
    | cons g rest => by_cases hc : c = sep <;> simp [hc]

theorem pySplit_not_mem (sep : Char) (x : Str) (h : sep ∉ x) :
    pySplit sep x = [x] := by
  induction x with
  | nil => rfl
  | cons c t ih =>
    have hc : ¬ c = sep := fun hc => h (by simp [hc])
    have ht := ih (fun hm => h (by simp [hm]))
    rw [pySplit_cons, ht]
    simp [hc]

theorem pySplit_append (sep : Char) (x y : Str) (h : sep ∉ x) :
    pySplit sep (x ++ sep :: y) = x :: pySplit sep y := by
  induction x with
  | nil =>
    show pySplit sep (sep :: y) = [] :: pySplit sep y
    rw [pySplit_cons]
    cases hps : pySplit sep y with
    | nil => exact absurd hps (pySplit_ne_nil sep y)
    | cons g rest => simp
  | cons c t ih =>
    have hc : ¬ c = sep := fun hc => h (by simp [hc])
    have ht := ih (fun hm => h (by simp [hm]))
    show pySplit sep (c :: (t ++ sep :: y)) = (c :: t) :: pySplit sep y
    rw [pySplit_cons, ht]
    simp [hc]

theorem mem_pySplit (sep : Char) (s t : Str) (ht : t ∈ pySplit sep s) :
    sep ∉ t ∧ ∀ c ∈ t, c ∈ s := by
  induction s generalizing t with
  | nil =>
    simp [pySplit] at ht
    subst ht
    simp
  | cons a s' ih =>
    rw [pySplit_cons] at ht
    cases hps : pySplit sep s' with
    | nil => exact absurd hps (pySplit_ne_nil sep s')
    | cons g rest =>
      rw [hps] at ht
      have hred : (match g :: rest with
          | [] => [[a]]
          | g :: rest =>
            if a = sep then [] :: g :: rest else (a :: g) :: rest) =
          if a = sep then [] :: g :: rest else (a :: g) :: rest := rfl
      rw [hred] at ht
      by_cases ha : a = sep
      · rw [if_pos ha] at ht
        rcases List.mem_cons.mp ht with rfl | hm
        · simp
        · have := ih t (by rw [hps]; exact hm)
          exact ⟨this.1, fun c hc => by simp [this.2 c hc]⟩
      · rw [if_neg ha] at ht
        rcases List.mem_cons.mp ht with rfl | hm
        · have hg := ih g (by rw [hps]; simp)
          constructor
          · intro hmem
            rcases List.mem_cons.mp hmem with rfl | hm2
            · exact ha rfl
            · exact hg.1 hm2
          · intro c hc
            rcases List.mem_cons.mp hc with rfl | hm2
            · simp
            · simp [hg.2 c hm2]
        · have := ih t (by rw [hps]; simp [hm])
          exact ⟨this.1, fun c hc => by simp [this.2 c hc]⟩

theorem dropWhile_append_keep (p : Char → Bool) (y : Char)
    (hy : p y = false) :
    ∀ x ys : Str, (x ++ y :: ys).dropWhile p =
      x.dropWhile p ++ y :: ys := by
  intro x
  induction x with
  | nil => intro ys; simp [List.dropWhile_cons, hy]
  | cons a t ih =>
    intro ys
    by_cases ha : p a = true
    · simp [List.dropWhile_cons, ha, ih ys]
    · simp at ha
      simp [List.dropWhile_cons, ha]

theorem dropWhile_append_all (p : Char → Bool) (x : Str)
    (h : ∀ c ∈ x, p c = true) :
    ∀ y : Str, (x ++ y).dropWhile p = y.dropWhile p := by
  induction x with
  | nil => intro y; rfl
  | cons a t ih =>
    intro y
    simp [List.dropWhile_cons, h a (by simp),
      ih (fun c hc => h c (by simp [hc]))]

theorem stripRight_append_anchor (c : Char) (hc : pyIsSpace c = false)
    (a b : Str) :
    stripRight (a ++ c :: b) = a ++ c :: stripRight b := by
  unfold stripRight
  have h1 : (a ++ c :: b).reverse = b.reverse ++ c :: a.reverse := by
    simp
  rw [h1, dropWhile_append_keep pyIsSpace c hc]
  simp

theorem stripRight_append_space (a b : Str)
    (hb : ∀ c ∈ b, pyIsSpace c = true) :
    stripRight (a ++ b) = stripRight a := by
  unfold stripRight
  rw [List.reverse_append, dropWhile_append_all pyIsSpace b.reverse
    (fun c hc => hb c (List.mem_reverse.mp hc))]

theorem mem_stripRight (s : Str) (c : Char) (hc : c ∈ stripRight s) :
    c ∈ s := by
  unfold stripRight at hc
  rw [List.mem_reverse] at hc
  exact List.mem_reverse.mp ((List.dropWhile_sublist _).mem hc)

theorem mem_pyStrip (s : Str) (c : Char) (hc : c ∈ pyStrip s) : c ∈ s := by
  unfold pyStrip at hc
  exact (List.dropWhile_sublist _).mem (mem_stripRight _ c hc)

/-! ### CSV cleanliness and line structure -/

/-- A field string free of the separator characters of the naive export
format. -/
def CleanStr (s : Str) : Prop := ∀ c ∈ s, c ≠ ',' ∧ c ≠ '\n'

instance (s : Str) : Decidable (CleanStr s) := by
  unfold CleanStr; infer_instance

/-- An item all of whose string fields are separator-free. -/
def CleanItem (it : InventoryItem) : Prop :=
  CleanStr it.name ∧ CleanStr it.unit ∧ CleanStr it.category ∧
  CleanStr it.vendors ∧ CleanStr it.last_updated

instance (it : InventoryItem) : Decidable (CleanItem it) := by
  unfold CleanItem; infer_instance

/-- The header fields produced by splitting the export header. -/
def invHeaderFields : List Str :=
  [chars "name", chars "unit", chars "quantity", chars "par_level",
   chars "category", chars "unit_cost", chars "vendors",
   chars "last_updated"]

theorem invHeader_fields : pySplit ',' invHeader = invHeaderFields := by
  decide

theorem invHeader_no_newline : '\n' ∉ invHeader := by decide

/-- The first seven comma-joined fields of an exported line. -/
def itemLinePre (it : InventoryItem) : Str :=
  it.name ++ ',' :: it.unit ++ ',' :: floatStr it.quantity ++
  ',' :: intStr it.par_level ++ ',' :: it.category ++
  ',' :: floatStr it.unit_cost ++ ',' :: it.vendors

theorem itemLine_decomp (it : InventoryItem) :
    itemLine it = itemLinePre it ++ ',' :: it.last_updated := by
  unfold itemLine itemLinePre
  simp [List.append_assoc]

theorem itemLinePre_no_newline (it : InventoryItem) (h : CleanItem it) :
    '\n' ∉ itemLinePre it := by
  obtain ⟨h1, h2, h3, h4, _⟩ := h
  have nm : '\n' ∉ it.name := fun hm => (h1 _ hm).2 rfl
  have un : '\n' ∉ it.unit := fun hm => (h2 _ hm).2 rfl
  have ca : '\n' ∉ it.category := fun hm => (h3 _ hm).2 rfl
  have ve : '\n' ∉ it.vendors := fun hm => (h4 _ hm).2 rfl
  have fq : '\n' ∉ floatStr it.quantity :=
    fun hm => (floatStr_clean _ _ hm).2 rfl
  have fc : '\n' ∉ floatStr it.unit_cost :=
    fun hm => (floatStr_clean _ _ hm).2 rfl
  have pl : '\n' ∉ intStr it.par_level :=
    fun hm => (intStr_clean _ _ hm).2 rfl
  have hcm : ¬ ('\n' : Char) = ',' := by decide
  unfold itemLinePre
  simp [List.mem_append, nm, un, ca, ve, fq, fc, pl, hcm]

theorem itemLine_no_newline (it : InventoryItem) (h : CleanItem it) :
    '\n' ∉ itemLine it := by
  rw [itemLine_decomp]
  intro hc
  rcases List.mem_append.mp hc with hm | hm
  · exact itemLinePre_no_newline it h hm
  rcases List.mem_cons.mp hm with heq | hm2
  · cases heq
  · exact (h.2.2.2.2 _ hm2).2 rfl

theorem pySplit_itemLinePre (it : InventoryItem) (h : CleanItem it)
    (X : Str) (hX : ',' ∉ X) :
    pySplit ',' (itemLinePre it ++ ',' :: X) =
      [it.name, it.unit, floatStr it.quantity, intStr it.par_level,
       it.category, floatStr it.unit_cost, it.vendors, X] := by
  obtain ⟨h1, h2, h3, h4, _⟩ := h
  have nm : ',' ∉ it.name := fun hm => (h1 _ hm).1 rfl
  have un : ',' ∉ it.unit := fun hm => (h2 _ hm).1 rfl
  have ca : ',' ∉ it.category := fun hm => (h3 _ hm).1 rfl
  have ve : ',' ∉ it.vendors := fun hm => (h4 _ hm).1 rfl
  have fq : ',' ∉ floatStr it.quantity :=
    fun hm => (floatStr_clean _ _ hm).1 rfl
  have fc : ',' ∉ floatStr it.unit_cost :=
    fun hm => (floatStr_clean _ _ hm).1 rfl
  have pl : ',' ∉ intStr it.par_level :=
    fun hm => (intStr_clean _ _ hm).1 rfl
  unfold itemLinePre
  simp only [List.append_assoc, List.cons_append]
  rw [pySplit_append ',' it.name _ nm,
    pySplit_append ',' it.unit _ un,
    pySplit_append ',' (floatStr it.quantity) _ fq,
    pySplit_append ',' (intStr it.par_level) _ pl,
    pySplit_append ',' it.category _ ca,
    pySplit_append ',' (floatStr it.unit_cost) _ fc,
    pySplit_append ',' it.vendors _ ve,
    pySplit_not_mem ',' X hX]

theorem lookupField_cons_ne (k k2 v : Str) (hdr vals : List Str)
    (h : ¬ k = k2) :
    lookupField (k :: hdr) (v :: vals) k2 = lookupField hdr vals k2 := by
  unfold lookupField
  rw [List.zip_cons_cons, List.find?_cons_of_neg _ (by simpa using h)]

theorem lookupField_cons_eq (k v : Str) (hdr vals : List Str) :
    lookupField (k :: hdr) (v :: vals) k = some v := by
  unfold lookupField
  rw [List.zip_cons_cons, List.find?_cons_of_pos _ (by simp)]
  rfl

theorem lookupField_mem (hdr vals : List Str) (k v : Str)
    (h : lookupField hdr vals k = some v) : v ∈ vals := by
  unfold lookupField at h
  cases hf : (hdr.zip vals).find? (fun p => p.1 = k) with
  | none => rw [hf] at h; simp at h
  | some p =>
    rw [hf] at h
    simp only [Option.map_some', Option.some.injEq] at h
    subst h
    exact (List.of_mem_zip (List.mem_of_find?_eq_some hf)).2

/-! ### The write/read round trip -/

theorem rowToItem_itemToRow (it : InventoryItem)
    (hq : FiniteDec it.quantity) (hc : FiniteDec it.unit_cost) :
    rowToItem (itemToRow it) = some it := by
  unfold rowToItem itemToRow
  simp only [pyFloat_floatStr _ hq, pyFloat_floatStr _ hc, pyInt_intStr]
  rfl

theorem readInvRows_write (items : List InventoryItem) :
    (∀ it ∈ items, FiniteDec it.quantity ∧ FiniteDec it.unit_cost) →
    readInvRows (items.map itemToRow) = some items := by
  induction items with
  | nil => intro _; rfl
  | cons a t ih =>
    intro h
    have ⟨hq, hc⟩ := h a (by simp)
    have ht := ih (fun it hit => h it (by simp [hit]))
    simp only [List.map_cons, readInvRows,
      rowToItem_itemToRow a hq hc, ht]

/-! ### Alignment of export lines under import -/

theorem export_cons (it : InventoryItem) (rest : List InventoryItem) :
    export_inventory_csv (it :: rest) =
      invHeader ++ '\n' :: (itemLine it ++ '\n' ::
        rest.foldr (fun j acc => itemLine j ++ '\n' :: acc) []) := by
  unfold export_inventory_csv
  simp

theorem dropWhile_header (X : Str) :
    (invHeader ++ X).dropWhile pyIsSpace = invHeader ++ X := by
  have h : invHeader ++ X = 'n' ::
      (chars "ame,unit,quantity,par_level,category,unit_cost,vendors,last_updated"
        ++ X) := rfl
  rw [h, List.dropWhile_cons]
  rw [show pyIsSpace 'n' = false from by decide]
  simp

/-- Stripping and line-splitting an export payload: the header comes off
whole, and the remainder splits after the anchor comma before the first
item's `last_updated` field. -/
theorem pyStrip_export_shape (P lu B : Str) (_hP : '\n' ∉ P) :
    pyStrip (invHeader ++ '\n' :: ((P ++ ',' :: lu) ++ '\n' :: B)) =
      (invHeader ++ '\n' :: P) ++
        ',' :: stripRight (lu ++ '\n' :: B) := by
  have hshape : invHeader ++ '\n' :: ((P ++ ',' :: lu) ++ '\n' :: B) =
      (invHeader ++ '\n' :: P) ++ ',' :: (lu ++ '\n' :: B) := by
    simp [List.append_assoc]
  rw [hshape]
  unfold pyStrip
  rw [show (invHeader ++ '\n' :: P) ++ ',' :: (lu ++ '\n' :: B) =
    invHeader ++ ('\n' :: P ++ ',' :: (lu ++ '\n' :: B)) from by simp]
  rw [dropWhile_header]
  rw [show invHeader ++ ('\n' :: P ++ ',' :: (lu ++ '\n' :: B)) =
    (invHeader ++ '\n' :: P) ++ ',' :: (lu ++ '\n' :: B) from by simp]
  exact stripRight_append_anchor ',' (by decide) _ _

theorem export_structure (it : InventoryItem) (rest : List InventoryItem)
    (hit : CleanItem it) (hrest : ∀ j ∈ rest, CleanItem j) :
    ∃ L R, pySplit '\n' (pyStrip (export_inventory_csv (it :: rest))) =
      invHeader :: (itemLinePre it ++ ',' :: L) :: R ∧ ',' ∉ L ∧
      '\n' ∉ L := by
  have hlu : CleanStr it.last_updated := hit.2.2.2.2
  have hPn : '\n' ∉ itemLinePre it := itemLinePre_no_newline it hit
  rw [export_cons, itemLine_decomp]
  rw [pyStrip_export_shape _ _ _ hPn]
  cases rest with
  | nil =>
    have hT : stripRight (it.last_updated ++ '\n' :: []) =
        stripRight it.last_updated := by
      apply stripRight_append_space
      intro c hc
      simp at hc
      rw [hc]
      decide
    refine ⟨stripRight it.last_updated, [], ?_, ?_, ?_⟩
    · simp only [List.foldr_nil, hT]
      have hnomem : '\n' ∉ (itemLinePre it ++
          ',' :: stripRight it.last_updated) := by
        intro hc
        rcases List.mem_append.mp hc with hm | hm
        · exact hPn hm
        rcases List.mem_cons.mp hm with heq | hm2
        · cases heq
        · exact (hlu _ (mem_stripRight _ _ hm2)).2 rfl
      rw [show (invHeader ++ '\n' :: itemLinePre it) ++
          ',' :: stripRight it.last_updated =
          invHeader ++ '\n' ::
            (itemLinePre it ++ ',' :: stripRight it.last_updated)
          from by simp]
      rw [pySplit_append '\n' invHeader _ invHeader_no_newline]
      rw [pySplit_not_mem '\n' _ hnomem]
    · intro hc
      exact (hlu _ (mem_stripRight _ _ hc)).1 rfl
    · intro hc
      exact (hlu _ (mem_stripRight _ _ hc)).2 rfl
  | cons j rest' =>
    have hluj : CleanStr j.last_updated := (hrest j (by simp)).2.2.2.2
    have hPjn : '\n' ∉ itemLinePre j :=
      itemLinePre_no_newline j (hrest j (by simp))
    have hT : stripRight (it.last_updated ++ '\n' ::
        List.foldr (fun j' acc => itemLine j' ++ '\n' :: acc) []
          (j :: rest')) =
        it.last_updated ++ '\n' :: ((itemLinePre j) ++
          ',' :: stripRight (j.last_updated ++ '\n' ::
            List.foldr (fun j' acc => itemLine j' ++ '\n' :: acc) []
              rest')) := by
      rw [List.foldr_cons, itemLine_decomp]
      rw [show it.last_updated ++ '\n' ::
          ((itemLinePre j ++ ',' :: j.last_updated) ++ '\n' ::
            List.foldr (fun j' acc => itemLine j' ++ '\n' :: acc) []
              rest') =
          (it.last_updated ++ '\n' :: itemLinePre j) ++
            ',' :: (j.last_updated ++ '\n' ::
              List.foldr (fun j' acc => itemLine j' ++ '\n' :: acc) []
                rest') from by simp]
      rw [stripRight_append_anchor ',' (by decide)]
      simp
    refine ⟨it.last_updated,
      pySplit '\n' (itemLinePre j ++
        ',' :: stripRight (j.last_updated ++ '\n' ::
          List.foldr (fun j' acc => itemLine j' ++ '\n' :: acc) []
            rest')), ?_, ?_, ?_⟩
    · rw [hT]
      have hline2 : '\n' ∉ itemLinePre it ++ ',' :: it.last_updated := by
        intro hc
        rcases List.mem_append.mp hc with hm | hm
        · exact hPn hm
        rcases List.mem_cons.mp hm with heq | hm2
        · cases heq
        · exact (hlu _ hm2).2 rfl
      rw [show (invHeader ++ '\n' :: itemLinePre it) ++
          ',' :: (it.last_updated ++ '\n' :: (itemLinePre j ++
            ',' :: stripRight (j.last_updated ++ '\n' ::
              List.foldr (fun j' acc => itemLine j' ++ '\n' :: acc) []
                rest'))) =
          invHeader ++ '\n' :: ((itemLinePre it ++
            ',' :: it.last_updated) ++ '\n' :: (itemLinePre j ++
            ',' :: stripRight (j.last_updated ++ '\n' ::
              List.foldr (fun j' acc => itemLine j' ++ '\n' :: acc) []
                rest'))) from by simp]
      rw [pySplit_append '\n' invHeader _ invHeader_no_newline]
      rw [pySplit_append '\n' _ _ hline2]
    · intro hc
      exact (hlu _ hc).1 rfl
    · intro hc
      exact (hlu _ hc).2 rfl

theorem lookup_name (v0 v1 v2 v3 v4 v5 v6 v7 : Str) :
    lookupField invHeaderFields [v0, v1, v2, v3, v4, v5, v6, v7]
      (chars "name") = some v0 := by
  unfold invHeaderFields
  rw [lookupField_cons_eq]

theorem lookup_unit (v0 v1 v2 v3 v4 v5 v6 v7 : Str) :
    lookupField invHeaderFields [v0, v1, v2, v3, v4, v5, v6, v7]
      (chars "unit") = some v1 := by
  unfold invHeaderFields
  rw [lookupField_cons_ne _ _ _ _ _ (by decide), lookupField_cons_eq]

theorem lookup_quantity (v0 v1 v2 v3 v4 v5 v6 v7 : Str) :
    lookupField invHeaderFields [v0, v1, v2, v3, v4, v5, v6, v7]
      (chars "quantity") = some v2 := by
  unfold invHeaderFields
  rw [lookupField_cons_ne _ _ _ _ _ (by decide),
    lookupField_cons_ne _ _ _ _ _ (by decide), lookupField_cons_eq]

theorem lookup_par_level (v0 v1 v2 v3 v4 v5 v6 v7 : Str) :
    lookupField invHeaderFields [v0, v1, v2, v3, v4, v5, v6, v7]
      (chars "par_level") = some v3 := by
  unfold invHeaderFields
  rw [lookupField_cons_ne _ _ _ _ _ (by decide),
    lookupField_cons_ne _ _ _ _ _ (by decide),
    lookupField_cons_ne _ _ _ _ _ (by decide), lookupField_cons_eq]

/-- Any exported data line fails row import: the quantity field is a float
rendering, which `int()` rejects. -/
theorem parseImportRow_fails (it : InventoryItem) (hit : CleanItem it)
    (L now : Str) (hL : ',' ∉ L) (i : Nat) :
    parseImportRow invHeaderFields i (itemLinePre it ++ ',' :: L) now =
      .error (.badRow i) := by
  have hlen : ¬ ([it.name, it.unit, floatStr it.quantity,
      intStr it.par_level, it.category, floatStr it.unit_cost,
      it.vendors, L].length ≠ invHeaderFields.length) := by
    simp [invHeaderFields]
  simp only [parseImportRow, pySplit_itemLinePre it hit L hL]
  rw [if_neg hlen]
  simp only [lookup_name, lookup_unit, lookup_quantity,
    lookup_par_level, pyInt_floatStr]

theorem importRows_first_error (hdr : List Str) (i : Nat) (l : Str)
    (t : List Str) (now : Str) (e : ImportError)
    (h : parseImportRow hdr i l now = .error e) :
    importRows hdr i (l :: t) now = .error e := by
  unfold importRows
  rw [h]

/-- Importing the exact export of a non-empty, separator-free inventory
fails on the first data row. -/
theorem import_export_clean_fails (it : InventoryItem)
    (rest : List InventoryItem) (hit : CleanItem it)
    (hrest : ∀ j ∈ rest, CleanItem j) (now : Str) :
    import_inventory_csv (export_inventory_csv (it :: rest)) now =
      .error (.badRow 2) := by
  obtain ⟨L, R, hsplit, hLc, _⟩ := export_structure it rest hit hrest
  simp only [import_inventory_csv]
  rw [hsplit]
  show importHeaderRows (pySplit ',' invHeader)
      ((itemLinePre it ++ ',' :: L) :: R) now =
    Except.error (ImportError.badRow 2)
  rw [invHeader_fields]
  unfold importHeaderRows
  split
  · rename_i f hf
    have hmem := List.mem_of_find?_eq_some hf
    have hpred := List.find?_some hf
    have hall : ∀ g ∈ requiredFields, g ∈ invHeaderFields := by decide
    simp at hpred
    exact absurd (hall f hmem) hpred
  · exact importRows_first_error _ _ _ _ _ _
      (parseImportRow_fails it hit L now hLc 2)

theorem CleanStr_pyStrip (s : Str) (h : CleanStr s) :
    CleanStr (pyStrip s) :=
  fun c hc => h c (mem_pyStrip s c hc)

/-- A successfully imported row has separator-free fields: every field is
a comma-split token of a newline-split line, or a default. -/
theorem parseImportRow_ok_clean (hdr : List Str) (i : Nat)
    (line now : Str) (hline : '\n' ∉ line) (hnow : CleanStr now)
    (it : InventoryItem)
    (h : parseImportRow hdr i line now = .ok it) : CleanItem it := by
  have hvals : ∀ v ∈ pySplit ',' line, CleanStr v := by
    intro v hv
    have hm := mem_pySplit ',' line v hv
    intro c hc
    exact ⟨fun hceq => hm.1 (hceq ▸ hc),
      fun hceq => hline (hceq ▸ hm.2 c hc)⟩
  have hlk : ∀ k dflt, CleanStr dflt →
      CleanStr ((lookupField hdr (pySplit ',' line) k).getD dflt) := by
    intro k dflt hd
    cases hf : lookupField hdr (pySplit ',' line) k with
    | none => simpa using hd
    | some v => simpa using hvals v (lookupField_mem _ _ _ _ hf)
  simp only [parseImportRow] at h
  split at h
  · exact absurd h (by simp)
  · split at h
    · split at h
      · rw [Except.ok.injEq] at h
        subst h
        rename_i hnm hun hqs hps x1 x2 x3 q p c h1 h2 h3
        refine ⟨?_, ?_, ?_, ?_, hnow⟩
        · exact CleanStr_pyStrip _
            (hvals _ (lookupField_mem _ _ _ _ hnm))
        · exact CleanStr_pyStrip _
            (hvals _ (lookupField_mem _ _ _ _ hun))
        · exact CleanStr_pyStrip _ (hlk _ _ (by decide))
        · exact CleanStr_pyStrip _ (hlk _ _ (by decide))
      · exact absurd h (by simp)
    · exact absurd h (by simp)

theorem importRows_ok_clean (hdr : List Str) (now : Str)
    (hnow : CleanStr now) :
    ∀ (lines : List Str) (i : Nat) (its : List InventoryItem),
      (∀ l ∈ lines, '\n' ∉ l) →
      importRows hdr i lines now = .ok its →
      ∀ j ∈ its, CleanItem j := by
  intro lines
  induction lines with
  | nil =>
    intro i its _ h j hj
    simp only [importRows, Except.ok.injEq] at h
    subst h
    cases hj
  | cons l t ih =>
    intro i its hl h j hj
    simp only [importRows] at h
    cases hp : parseImportRow hdr i l now with
    | error e => rw [hp] at h; simp at h
    | ok it0 =>
      rw [hp] at h
      cases hr : importRows hdr (i + 1) t now with
      | error e => rw [hr] at h; simp [Except.map] at h
      | ok its' =>
        rw [hr] at h
        simp only [Except.map, Except.ok.injEq] at h
        subst h
        rcases List.mem_cons.mp hj with rfl | hj'
        · exact parseImportRow_ok_clean hdr i l now
            (hl l (by simp)) hnow j hp
        · exact ih (i + 1) its' (fun l2 hl2 => hl l2 (by simp [hl2]))
            hr j hj'

theorem importHeaderRows_ok_clean (hdr : List Str) (rest : List Str)
    (now : Str) (its : List InventoryItem) (hnow : CleanStr now)
    (hrest : ∀ l ∈ rest, '\n' ∉ l)
    (h : importHeaderRows hdr rest now = .ok its) :
    ∀ j ∈ its, CleanItem j := by
  unfold importHeaderRows at h
  cases hf : requiredFields.find? (fun f => ¬ hdr.contains f) with
  | some f => rw [hf] at h; simp at h
  | none =>
    rw [hf] at h
    exact importRows_ok_clean hdr now hnow rest 2 its hrest h

theorem import_ok_clean (csv now : Str) (its : List InventoryItem)
    (hnow : CleanStr now)
    (h : import_inventory_csv csv now = .ok its) :
    ∀ j ∈ its, CleanItem j := by
  simp only [import_inventory_csv] at h
  cases hsplit : pySplit '\n' (pyStrip csv) with
  | nil => rw [hsplit] at h; simp at h
  | cons hline rest =>
    rw [hsplit] at h
    cases rest with
    | nil => simp at h
    | cons l2 t2 =>
      have h2 : importHeaderRows (pySplit ',' hline) (l2 :: t2) now =
          .ok its := h
      refine importHeaderRows_ok_clean _ _ now its hnow ?_ h2
      intro l hl
      have hmem : l ∈ pySplit '\n' (pyStrip csv) := by
        rw [hsplit]
        simp [hl]
      exact (mem_pySplit '\n' _ l hmem).1

/-! ## Claims -/

/-- The item of the spec's worked example:
`{name: "Flour", quantity: 5, par_level: 10, unit_cost: 2.0}`. -/
def flourItem : InventoryItem :=
  { name := chars "Flour", unit := chars "lbs", quantity := 5,
    par_level := 10, unit_cost := 2 }

/-- C9: for every item, `is_low_stock()` holds iff `quantity <= par_level`
and `total_value()` equals `quantity * unit_cost`; on the spec's example
item the helpers return `is_low_stock() = true`, `total_value() = 10.0`,
`quantity_needed() = 5`. -/
theorem C9_item_helpers (it : InventoryItem) :
    (is_low_stock it = true ↔ it.quantity ≤ (it.par_level : Rat)) ∧
    total_value it = it.quantity * it.unit_cost ∧
    is_low_stock flourItem = true ∧
    total_value flourItem = 10 ∧
    quantity_needed flourItem = 5 := by
  refine ⟨?_, rfl, by decide, by decide, by decide⟩
  simp [is_low_stock]

/-- The permission-tag universe exactly as the spec's §4.4 states it
(`view`, `edit`, `delete`, `import`, `export`, `manage_users`,
`record_counts`, `approve_orders`); written from the spec's words so it
can be compared with the code's table. -/
def specPermissionTags : List Str :=
  [chars "view", chars "edit", chars "delete",
   chars "import", chars "export", chars "manage_users",
   chars "record_counts", chars "approve_orders"]

/-- The permission tags that actually occur in the code's role table:
the spec's eight plus `log_waste`. -/
def codePermissionTags : List Str :=
  specPermissionTags ++ [chars "log_waste"]

/-- C7, counterexample: the code grants the `staff` role the `log_waste`
permission, a tag outside the spec's stated universe, so the permission
sets are not drawn from the spec's eight tags. -/
theorem C7_counterexample :
    has_permission
      { username := chars "s", password_hash := [], role := chars "staff" }
      (chars "log_waste") = true ∧
    chars "log_waste" ∉ specPermissionTags := by
  constructor
  · decide
  · decide

/-- C7, amended: the role table maps each fixed role to a set of tags drawn
from the nine-tag universe (the spec's eight plus `log_waste`);
`has_permission` is exactly membership in the role's set; every role
outside {admin, manager, staff} has no permissions. -/
theorem C7_amended (u : User) (p : Str) :
    (has_permission u p = true → p ∈ codePermissionTags) ∧
    (has_permission u p = true ↔
      ∃ e ∈ permTable, e.1 = u.role ∧ p ∈ e.2) ∧
    (u.role ∉ [chars "admin", chars "manager", chars "staff"] →
      has_permission u p = false) := by
  have tagsub : ∀ e ∈ permTable, ∀ t ∈ e.2, t ∈ codePermissionTags := by
    decide
  have roles : ∀ e ∈ permTable,
      e.1 ∈ [chars "admin", chars "manager", chars "staff"] := by decide
  refine ⟨?_, ?_, ?_⟩
  · intro h
    unfold has_permission at h
    cases hf : permTable.find? (fun e => e.1 = u.role) with
    | none => rw [hf] at h; simp at h
    | some e =>
      rw [hf] at h
      simp only [Option.map_some', Option.getD_some] at h
      exact tagsub e (List.mem_of_find?_eq_some hf)
        p (by simpa using h)
  · unfold has_permission
    cases hf : permTable.find? (fun e => e.1 = u.role) with
    | none =>
      simp only [Option.map_none', Option.getD_none]
      constructor
      · intro h; simp at h
      · rintro ⟨e, he, hr, hp⟩
        have := List.find?_eq_none.mp hf e he
        simp [hr] at this
    | some e =>
      simp only [Option.map_some', Option.getD_some]
      constructor
      · intro h
        exact ⟨e, List.mem_of_find?_eq_some hf,
          by simpa using List.find?_some hf, by simpa using h⟩
      · rintro ⟨e', he', hr', hp'⟩
        have huniq : ∀ a ∈ permTable, ∀ b ∈ permTable, a.1 = b.1 → a = b := by
          decide
        have h1 : e.1 = u.role := by simpa using List.find?_some hf
        have hee : e = e' :=
          huniq e (List.mem_of_find?_eq_some hf) e' he' (by rw [h1, hr'])
        subst hee
        simpa using hp'
  · intro h
    unfold has_permission
    cases hf : permTable.find? (fun e => e.1 = u.role) with
    | none => simp
    | some e =>
      exfalso
      have h1 : e.1 = u.role := by simpa using List.find?_some hf
      have := roles e (List.mem_of_find?_eq_some hf)
      rw [h1] at this
      exact h this

/-- C10: the count-update route stores the submitted count verbatim
(no lower bound, so a negative count is stored negative), changes only
`quantity` and `last_updated` of the first item with the submitted name,
and leaves every other item unchanged. -/
theorem C10_update_count_verbatim (inv : List InventoryItem) (nm : Str)
    (count : Rat) (now : Str) (it : InventoryItem)
    (h : get_inventory_item inv nm = some it) :
    ∃ pre post, inv = pre ++ it :: post ∧ (∀ u ∈ pre, ¬ u.name = nm) ∧
      update_count inv nm count now =
        pre ++ { it with quantity := count, last_updated := now } :: post ∧
      get_inventory_item (update_count inv nm count now) nm =
        some { it with quantity := count, last_updated := now } := by
  obtain ⟨pre, post, he, hn, hpre, hu⟩ :=
    update_inventory_item_split inv nm
      { it with quantity := count, last_updated := now } it h
  refine ⟨pre, post, he, hpre, ?_, ?_⟩
  · unfold update_count
    rw [h]
    exact hu
  · unfold update_count
    rw [h]
    exact get_update_inventory_item inv nm _ it h hn

/-- Concrete item for the count-update witness. -/
def beansItem : InventoryItem :=
  { name := chars "Beans", unit := chars "lbs", quantity := 4,
    par_level := 2, unit_cost := 1 }

/-- C10 witness: updating the count of a concrete one-item inventory with
the negative count `-3` stores `-3`. -/
theorem C10_witness :
    get_inventory_item [beansItem] (chars "Beans") = some beansItem ∧
    (∃ pre post,
      [beansItem] = pre ++ beansItem :: post ∧
      (∀ u ∈ pre, ¬ u.name = chars "Beans") ∧
      update_count [beansItem] (chars "Beans") (-3) (chars "t") =
        pre ++ { beansItem with quantity := -3, last_updated := chars "t" } :: post ∧
      get_inventory_item
        (update_count [beansItem] (chars "Beans") (-3) (chars "t"))
        (chars "Beans") =
        some { beansItem with quantity := -3, last_updated := chars "t" }) :=
  ⟨by decide, C10_update_count_verbatim [beansItem] (chars "Beans") (-3)
    (chars "t") beansItem (by decide)⟩

/-- C8: both the add-waste and the edit-waste actions store
`max(0, old_quantity - waste_quantity)` as the item's new quantity
(where for the edit action the old quantity is the one read after the
original entry's quantity has been restored), which is never negative. -/
theorem C8_clamped_decrement :
    (∀ inv wlog rawName q unit reason now user it,
      0 ≤ it.quantity →
      get_inventory_item inv (pyStrip rawName) = some it →
      get_inventory_item
          (waste_add_action inv wlog rawName q unit reason now user).1
          (pyStrip rawName) =
        some { it with quantity := max 0 (it.quantity - q), last_updated := now } ∧
      (0 : Rat) ≤ max 0 (it.quantity - q)) ∧
    (∀ inv wlog idx rawName q unit reason now user it,
      0 ≤ it.quantity → 0 ≤ idx → idx.toNat < wlog.length →
      get_inventory_item (waste_edit_restore inv wlog idx)
        (pyStrip rawName) = some it →
      get_inventory_item
          (waste_edit_action inv wlog idx rawName q unit reason now
            user).1 (pyStrip rawName) =
        some { it with quantity := max 0 (it.quantity - q), last_updated := now } ∧
      (0 : Rat) ≤ max 0 (it.quantity - q)) := by
  constructor
  · intro inv wlog rawName q unit reason now user it _ h
    have hn : it.name = pyStrip rawName := by
      simpa using List.find?_some h
    refine ⟨?_, le_max_left 0 _⟩
    have hres :
        (waste_add_action inv wlog rawName q unit reason now user).1 =
        update_inventory_item inv (pyStrip rawName)
          { it with quantity := max 0 (it.quantity - q),
                    last_updated := now } := by
      unfold waste_add_action
      simp only [h]
    rw [hres]
    exact get_update_inventory_item inv (pyStrip rawName) _ it h hn
  · intro inv wlog idx rawName q unit reason now user it _ h0 hlen h
    have hn : it.name = pyStrip rawName := by
      simpa using List.find?_some h
    refine ⟨?_, le_max_left 0 _⟩
    have hres :
        (waste_edit_action inv wlog idx rawName q unit reason now
          user).1 =
        update_inventory_item (waste_edit_restore inv wlog idx)
          (pyStrip rawName)
          { it with quantity := max 0 (it.quantity - q),
                    last_updated := now } := by
      unfold waste_edit_action
      simp only [h, if_pos (And.intro h0 hlen)]
    rw [hres]
    exact get_update_inventory_item _ (pyStrip rawName) _ it h hn

/-- Concrete state for the clamping witness. -/
def riceItem : InventoryItem :=
  { name := chars "Rice", unit := chars "lbs", quantity := 3,
    par_level := 5, unit_cost := 2 }

/-- C8 witness: logging 10 units of waste against a concrete item holding 3
clamps the stored quantity to `max 0 (3 - 10) = 0`. -/
theorem C8_witness :
    (0 : Rat) ≤ riceItem.quantity ∧
    get_inventory_item [riceItem] (pyStrip (chars "Rice")) =
      some riceItem ∧
    (get_inventory_item
        (waste_add_action [riceItem] [] (chars "Rice") 10 (chars "lbs")
          (chars "r") (chars "t") (chars "u")).1
        (pyStrip (chars "Rice")) =
      some { riceItem with quantity := max 0 (riceItem.quantity - 10), last_updated := chars "t" } ∧
      (0 : Rat) ≤ max 0 (riceItem.quantity - 10)) :=
  ⟨by decide, by decide,
    C8_clamped_decrement.1 [riceItem] [] (chars "Rice") 10 (chars "lbs")
      (chars "r") (chars "t") (chars "u") riceItem (by decide) (by decide)⟩

/-- C1: archiving a non-empty waste log (all of whose dates parse) leaves
the live log empty and appends exactly one report to the report log, whose
`total_value` is the sum of `waste_value()` over the archived entries and
whose `total_entries` is their number. -/
theorem C1_archival_step (now : Int) (st : ArchState)
    (h1 : st.wasteLog ≠ [])
    (_h2 : (parseEntryDates st.wasteLog).isSome = true) :
    (archive_waste_log now st).wasteLog = [] ∧
    (archive_waste_log now st).reports = st.reports ++
      [generate_weekly_report st.wasteLog st.inventory
        (now - 7 * 86400) now] ∧
    (generate_weekly_report st.wasteLog st.inventory
      (now - 7 * 86400) now).total_value =
      (st.wasteLog.map waste_value).sum ∧
    (generate_weekly_report st.wasteLog st.inventory
      (now - 7 * 86400) now).total_entries = st.wasteLog.length := by
  have hne : st.wasteLog.isEmpty = false := by
    cases hw : st.wasteLog with
    | nil => exact absurd hw h1
    | cons a t => rfl
  refine ⟨?_, ?_, rfl, rfl⟩ <;> simp [archive_waste_log, hne]

/-- Concrete waste entry with a parsable date for the archival witnesses. -/
def appleEntry : WasteEntry :=
  { item_name := chars "Apples", quantity := 2, unit := chars "lbs",
    reason := chars "spoiled", date := chars "2024-01-01 00:00:00",
    logged_by := chars "ann", unit_cost := 3 }

/-- Concrete archival state for the C1 witness. -/
def st1 : ArchState :=
  { wasteLog := [appleEntry], reports := [], inventory := [],
    archives := [] }

/-- C1 witness: the archival step on a concrete one-entry log. -/
theorem C1_witness :
    st1.wasteLog ≠ [] ∧ (parseEntryDates st1.wasteLog).isSome = true ∧
    ((archive_waste_log 1705000000 st1).wasteLog = [] ∧
      (archive_waste_log 1705000000 st1).reports = st1.reports ++
        [generate_weekly_report st1.wasteLog st1.inventory
          (1705000000 - 7 * 86400) 1705000000] ∧
      (generate_weekly_report st1.wasteLog st1.inventory
        (1705000000 - 7 * 86400) 1705000000).total_value =
        (st1.wasteLog.map waste_value).sum ∧
      (generate_weekly_report st1.wasteLog st1.inventory
        (1705000000 - 7 * 86400) 1705000000).total_entries =
        st1.wasteLog.length) :=
  ⟨by decide, by decide,
    C1_archival_step 1705000000 st1 (by decide) (by decide)⟩

/-- C2: with a non-empty, fully parsable waste log, the archival check is
decided by the age of the oldest entry: at exactly 7 days (604800 s) it
returns `true`; at 6 days 23 hours (601200 s) it returns `false`. -/
theorem C2_archival_trigger (now : Int) (st : ArchState) (ds : List Int)
    (hne : st.wasteLog ≠ [])
    (hp : parseEntryDates st.wasteLog = some ds) :
    (listMin ds = now - 604800 →
      should_archive_waste_log now st = true) ∧
    (listMin ds = now - 601200 →
      should_archive_waste_log now st = false) := by
  cases hw : st.wasteLog with
  | nil => exact absurd hw hne
  | cons a t =>
    rw [hw] at hp
    constructor
    · intro hmin
      have harith : now - listMin ds = 604800 := by rw [hmin]; ring
      simp [should_archive_waste_log, hw, hp, harith]
    · intro hmin
      have harith : now - listMin ds = 601200 := by rw [hmin]; ring
      simp [should_archive_waste_log, hw, hp, harith]

/-- C2 witness: a concrete one-entry log checked exactly 7 days and exactly
6 days 23 hours after its single entry. -/
theorem C2_witness :
    st1.wasteLog ≠ [] ∧
    parseEntryDates st1.wasteLog = some [1704067200] ∧
    should_archive_waste_log (1704067200 + 604800) st1 = true ∧
    should_archive_waste_log (1704067200 + 601200) st1 = false :=
  ⟨by decide, by decide,
    (C2_archival_trigger (1704067200 + 604800) st1 [1704067200]
      (by decide) (by decide)).1 (by decide),
    (C2_archival_trigger (1704067200 + 601200) st1 [1704067200]
      (by decide) (by decide)).2 (by decide)⟩

/-- A single unparsable date makes `parseEntryDates` fail as a whole. -/
theorem parseEntryDates_none_of_bad (entries : List WasteEntry)
    (e : WasteEntry) (he : e ∈ entries)
    (hbad : parseDateTime e.date = none) :
    parseEntryDates entries = none := by
  induction entries with
  | nil => cases he
  | cons a t ih =>
    rcases List.mem_cons.mp he with rfl | hm
    · simp [parseEntryDates, hbad]
    · cases hd : parseDateTime a.date with
      | none => simp [parseEntryDates, hd]
      | some d => simp [parseEntryDates, hd, ih hm]

/-- C6: with an empty live log, or with any entry whose date does not
parse, the opportunistic archival check performs no archival: it returns
`false` and leaves the whole state — waste log, report log, archives —
unchanged.  (`check_and_archive_if_needed` is a total function, modelling
the source's blanket `except Exception: return False`, so no error ever
escapes to the enclosing request.) -/
theorem C6_archival_skip (now : Int) (st : ArchState) :
    (st.wasteLog = [] →
      check_and_archive_if_needed now st = (st, false)) ∧
    ((∃ e ∈ st.wasteLog, parseDateTime e.date = none) →
      check_and_archive_if_needed now st = (st, false)) := by
  constructor
  · intro h
    have hs : should_archive_waste_log now st = false := by
      simp [should_archive_waste_log, h]
    simp [check_and_archive_if_needed, hs]
  · rintro ⟨e, he, hbad⟩
    have hn := parseEntryDates_none_of_bad st.wasteLog e he hbad
    have hs : should_archive_waste_log now st = false := by
      cases hw : st.wasteLog with
      | nil => simp [should_archive_waste_log, hw]
      | cons a t =>
        rw [hw] at hn
        simp [should_archive_waste_log, hw, hn]
    simp [check_and_archive_if_needed, hs]

/-- Concrete state with an unparsable date for the C6 witness. -/
def stBad : ArchState :=
  { wasteLog := [{ appleEntry with date := chars "not a date" }],
    reports := [], inventory := [], archives := [] }

/-- C6 witness: the empty log and a log with one malformed date both leave
the state untouched. -/
theorem C6_witness :
    check_and_archive_if_needed 1705000000
        { wasteLog := [], reports := [], inventory := [], archives := [] } =
      ({ wasteLog := [], reports := [], inventory := [], archives := [] },
        false) ∧
    check_and_archive_if_needed 1705000000 stBad = (stBad, false) :=
  ⟨(C6_archival_skip 1705000000 _).1 (by decide),
    (C6_archival_skip 1705000000 stBad).2
      ⟨{ appleEntry with date := chars "not a date" }, by decide,
        by decide⟩⟩

/-- C4, counterexample: reading the category collection with its backing
file missing does not return the empty collection — it returns the
built-in defaults. -/
theorem C4_counterexample :
    read_categories none (chars "2024-01-01 00:00:00") ≠ [] := by decide

/-- C4, amended: with a missing backing file, the inventory, user, waste
log and vendor collections all read as empty; the category collection
instead falls back to the 13 built-in default categories. -/
theorem C4_missing_file (now : Str) :
    read_inventory none = some [] ∧
    read_users none = [] ∧
    read_waste_log none = [] ∧
    read_vendors none = [] ∧
    read_categories none now = defaultCategoryRecords now ∧
    defaultCategoryRecords now ≠ [] := by
  refine ⟨rfl, rfl, rfl, rfl, rfl, ?_⟩
  simp [defaultCategoryRecords, DEFAULT_CATEGORIES, chars]

/-- A vendor name that is in use is in some item's (stripped, non-empty)
vendor list, hence non-empty. -/
theorem in_use_name_not_empty (inv : List InventoryItem) (nm : Str)
    (h : is_vendor_in_use inv nm = true) : nm.isEmpty = false := by
  unfold is_vendor_in_use at h
  obtain ⟨it, _, hc⟩ := List.any_eq_true.mp h
  have hm : nm ∈ get_vendors it := by
    simpa using hc
  have := List.of_mem_filter hm
  cases nm with
  | nil => simp at this
  | cons a t => rfl

/-- Removing a name that occurs exactly once: the list splits around the
unique occurrence and `filter` deletes exactly it. -/
theorem countP_one_filter_split (l : List Vendor) (nm : Str)
    (h : l.countP (fun v => v.name = nm) = 1) :
    ∃ pre v post, l = pre ++ v :: post ∧ v.name = nm ∧
      (∀ u ∈ pre, ¬ u.name = nm) ∧ (∀ u ∈ post, ¬ u.name = nm) ∧
      l.filter (fun v => ¬ v.name = nm) = pre ++ post := by
  induction l with
  | nil => simp at h
  | cons a t ih =>
    by_cases ha : a.name = nm
    · have ht : t.countP (fun v => v.name = nm) = 0 := by
        rw [List.countP_cons] at h
        simpa [ha] using h
      have hall : ∀ u ∈ t, ¬ u.name = nm := by
        intro u hu hcon
        have := List.countP_eq_zero.mp ht u hu
        simp [hcon] at this
      refine ⟨[], a, t, by simp, ha, by simp, hall, ?_⟩
      have hft : List.filter (fun v => decide (¬ v.name = nm)) t = t :=
        List.filter_eq_self.mpr (fun u hu => by simp [hall u hu])
      simp only [List.filter_cons, ha, not_true_eq_false, decide_False,
        Bool.false_eq_true, if_false] at hft ⊢
      exact hft
    · have ht : t.countP (fun v => v.name = nm) = 1 := by
        rw [List.countP_cons] at h
        simpa [ha] using h
      obtain ⟨pre, v, post, he, hv, hpre, hpost, hf⟩ := ih ht
      refine ⟨a :: pre, v, post, by simp [he], hv, ?_, hpost, ?_⟩
      · intro u hu
        rcases List.mem_cons.mp hu with rfl | hm
        exacts [ha, hpre u hm]
      · rw [List.filter_cons]
        simp only [decide_not] at hf ⊢
        simp only [ha, decide_False, Bool.not_false, if_true]
        simp [hf]

/-- C5: the vendor-delete action rejects a vendor that occurs in some
item's vendor list, leaving the vendor collection unchanged; for a vendor
in use by no item and present (exactly once, names being the collection's
unique key) it succeeds, removing exactly that record and leaving all
other vendors unchanged in order. -/
theorem C5_vendor_delete :
    (∀ inv vs (raw : Str),
      is_vendor_in_use inv (pyStrip raw) = true →
      vendors_delete_action inv vs raw =
        (vs, VendorDeleteOutcome.inUse)) ∧
    (∀ inv vs (raw : Str),
      is_vendor_in_use inv (pyStrip raw) = false →
      (pyStrip raw).isEmpty = false →
      vs.countP (fun v => v.name = pyStrip raw) = 1 →
      ∃ pre v post, vs = pre ++ v :: post ∧ v.name = pyStrip raw ∧
        (∀ u ∈ pre, ¬ u.name = pyStrip raw) ∧
        (∀ u ∈ post, ¬ u.name = pyStrip raw) ∧
        vendors_delete_action inv vs raw =
          (pre ++ post, VendorDeleteOutcome.deleted)) := by
  constructor
  · intro inv vs raw h
    have hne := in_use_name_not_empty inv (pyStrip raw) h
    unfold vendors_delete_action
    simp only [hne, Bool.false_eq_true, if_false, h, if_true]
  · intro inv vs raw huse hne hcount
    obtain ⟨pre, v, post, he, hv, hpre, hpost, hf⟩ :=
      countP_one_filter_split vs (pyStrip raw) hcount
    refine ⟨pre, v, post, he, hv, hpre, hpost, ?_⟩
    unfold vendors_delete_action
    simp only [hne, Bool.false_eq_true, if_false, huse]
    unfold delete_vendor
    rw [hf]

/-- Concrete data for the C5 witness: one item using vendor `Acme`, a
vendor collection holding `Acme` and `Bolt`. -/
def acmeVendor : Vendor := { name := chars "Acme" }

/-- Second concrete vendor for the C5 witness. -/
def boltVendor : Vendor := { name := chars "Bolt" }

/-- Concrete inventory for the C5 witness. -/
def invC5 : List InventoryItem :=
  [{ name := chars "Nails", unit := chars "box", quantity := 1,
     par_level := 1, vendors := chars "Acme" }]

/-- C5 witness: deleting `Acme` (in use) is rejected with the collection
unchanged; deleting `Bolt` (unused, present once) succeeds. -/
theorem C5_witness :
    (is_vendor_in_use invC5 (pyStrip (chars "Acme")) = true ∧
      vendors_delete_action invC5 [acmeVendor, boltVendor]
        (chars "Acme") =
        ([acmeVendor, boltVendor], VendorDeleteOutcome.inUse)) ∧
    (is_vendor_in_use invC5 (pyStrip (chars "Bolt")) = false ∧
      (pyStrip (chars "Bolt")).isEmpty = false ∧
      [acmeVendor, boltVendor].countP
        (fun v => v.name = pyStrip (chars "Bolt")) = 1 ∧
      ∃ pre v post,
        [acmeVendor, boltVendor] = pre ++ v :: post ∧
        v.name = pyStrip (chars "Bolt") ∧
        (∀ u ∈ pre, ¬ u.name = pyStrip (chars "Bolt")) ∧
        (∀ u ∈ post, ¬ u.name = pyStrip (chars "Bolt")) ∧
        vendors_delete_action invC5 [acmeVendor, boltVendor]
          (chars "Bolt") =
          (pre ++ post, VendorDeleteOutcome.deleted)) :=
  ⟨⟨by decide,
    C5_vendor_delete.1 invC5 [acmeVendor, boltVendor] (chars "Acme")
      (by decide)⟩,
   ⟨by decide, by decide, by decide,
    C5_vendor_delete.2 invC5 [acmeVendor, boltVendor] (chars "Bolt")
      (by decide) (by decide) (by decide)⟩⟩

/-- C7 witness: a concrete permission grant lies inside the nine-tag
universe, and a concrete unknown role has no permissions. -/
theorem C7_witness :
    chars "view" ∈ codePermissionTags ∧
    has_permission
      { username := chars "x", password_hash := [], role := chars "guest" }
      (chars "view") = false :=
  ⟨(C7_amended
      { username := chars "x", password_hash := [], role := chars "staff" }
      (chars "view")).1 (by decide),
   (C7_amended
      { username := chars "x", password_hash := [], role := chars "guest" }
      (chars "view")).2.2 (by decide)⟩

/-- Concrete item for the C3 counterexample. -/
def c3Item : InventoryItem :=
  { name := chars "Flour", unit := chars "lbs", quantity := 5,
    par_level := 10, category := chars "General", unit_cost := 2,
    vendors := chars "Acme", last_updated := chars "2024-01-01 00:00:00" }

/-- C3, counterexample: importing the exact string produced by exporting a
concrete one-item inventory does not reconstruct the item — it fails with
a row-format error, because export renders the quantity as the float
string `5.0` and import parses the quantity column with `int()`. -/
theorem C3_counterexample :
    import_inventory_csv (export_inventory_csv [c3Item])
        (chars "2024-02-01 00:00:00") =
      Except.error (ImportError.badRow 2) ∧
    import_inventory_csv (export_inventory_csv [c3Item])
        (chars "2024-02-01 00:00:00") ≠ Except.ok [c3Item] := by
  constructor
  · decide
  · decide

/-- C3, amended: writing N inventory items to the backing file and reading
them back yields the same N items with identical field values (for items
whose numeric fields are finite decimals, which is every value the
application can store); but the CSV export/import round trip is not
lossless — importing the exact string produced by export never returns
the original items (it fails on the first data row, whose quantity is a
float rendering that import's `int()` parser rejects). -/
theorem C3_roundtrip (items : List InventoryItem) (now : Str) :
    ((∀ it ∈ items, FiniteDec it.quantity ∧ FiniteDec it.unit_cost) →
      read_inventory (some (write_inventory items)) = some items) ∧
    (CleanStr now →
      import_inventory_csv (export_inventory_csv items) now ≠
        Except.ok items) := by
  constructor
  · intro h
    exact readInvRows_write items h
  · intro hnow hok
    cases items with
    | nil =>
      rw [show import_inventory_csv (export_inventory_csv []) now =
        Except.error ImportError.tooFewLines from rfl] at hok
      simp at hok
    | cons a t =>
      have hclean := import_ok_clean _ now _ hnow hok
      rw [import_export_clean_fails a t (hclean a (by simp))
        (fun j hj => hclean j (by simp [hj])) now] at hok
      simp at hok

/-- Concrete item for the C3 witness, with a fractional quantity. -/
def c3WitnessItem : InventoryItem :=
  { name := chars "Milk", unit := chars "gal", quantity := 5 / 2,
    par_level := 4, category := chars "Dairy", unit_cost := 3,
    vendors := chars "Costco", last_updated := chars "2024-01-02 08:30:00" }

/-- C3 witness: the amended round-trip statement at a concrete one-item
inventory. -/
theorem C3_witness :
    (∀ it ∈ [c3WitnessItem],
      FiniteDec it.quantity ∧ FiniteDec it.unit_cost) ∧
    CleanStr (chars "2024-03-01 00:00:00") ∧
    read_inventory (some (write_inventory [c3WitnessItem])) =
      some [c3WitnessItem] ∧
    import_inventory_csv (export_inventory_csv [c3WitnessItem])
      (chars "2024-03-01 00:00:00") ≠ Except.ok [c3WitnessItem] :=
  ⟨by decide, by decide,
   (C3_roundtrip [c3WitnessItem] (chars "2024-03-01 00:00:00")).1
     (by decide),
   (C3_roundtrip [c3WitnessItem] (chars "2024-03-01 00:00:00")).2
     (by decide)⟩

end HPT
